import Mathlib

set_option maxHeartbeats 1000000

/-!
Verification development for the voc-table-recognition repository.

Part 1 embeds `src/utils/convert_prima_to_coco_rc.py`: the PRIMA-to-COCO
converter that groups table cells by row/column index, unions each group's
polygons with shapely, and emits COCO records.

Coordinates are embedded as rationals (the script parses them with Python
`float`; every claim here concerns exact structural facts, not rounding).
The shapely pipeline `Polygon` / `make_valid` / `unary_union` is an external
geometry library; it is embedded as an explicit function parameter
`uu : List (List Point) → UGeom` mapping the list of (≥ 3 point) coordinate
rings of a group to the union geometry, with the three outcomes the script
distinguishes via `geom_type`: a single polygon (its exterior ring), a
multi-polygon (a non-empty list of parts, each an exterior ring with its
area), or anything else.
-/

abbrev Point := Rat × Rat

/-- A `TableCell` element: its `row` and `col` attributes (the script applies
Python `int` to them) and the parsed point list of its `Coords` child
(`cvt_coords_to_array`). -/
structure Cell where
  row : Int
  col : Int
  coords : List Point
deriving DecidableEq

/-- Python `dict`-of-lists update: `d[k].append(c)` when the key is present
(updated in place, so insertion order of keys is preserved), otherwise
`d[k] = [c]` appends a fresh key at the end. -/
def dictAppend (d : List (Int × List Cell)) (k : Int) (c : Cell) :
    List (Int × List Cell) :=
  if d.any (fun p => p.1 == k) then
    d.map (fun p => if p.1 == k then (p.1, p.2 ++ [c]) else p)
  else d ++ [(k, [c])]

/-- `group_cells_by_row_and_column`: one pass over the cells, appending each
cell to the row group keyed by `int(cell['row'])` and to the column group
keyed by `int(cell['col'])`. -/
def group_cells_by_row_and_column (cells : List Cell) :
    List (Int × List Cell) × List (Int × List Cell) :=
  cells.foldl
    (fun rc cell => (dictAppend rc.1 cell.row cell, dictAppend rc.2 cell.col cell))
    ([], [])

/-- Result of `unary_union` (after per-cell `Polygon`/`make_valid`), as the
script case-splits on `geom_type`: a `Polygon` with its exterior-ring
coordinates, a `MultiPolygon` as a non-empty list of parts (exterior ring and
area of each), or any other geometry type. -/
inductive UGeom where
  | poly (exterior : List Point)
  | multi (part0 : List Point × Rat) (parts : List (List Point × Rat))
  | other
deriving DecidableEq

/-- The polygon list built inside `calculate_group_boundaries`: the parsed
`Coords` of each cell of the group, keeping only those with at least 3
points (cells with fewer are `continue`d over). -/
def cellPolygons (cell_list : List Cell) : List (List Point) :=
  cell_list.filterMap (fun c => if 3 ≤ c.coords.length then some c.coords else none)

/-- Python `max(geoms, key=lambda p: p.area)`: the first part of maximal
area (later parts replace the current best only on strictly greater area). -/
def maxByArea (part0 : List Point × Rat) (parts : List (List Point × Rat)) :
    List Point × Rat :=
  parts.foldl (fun best q => if best.2 < q.2 then q else best) part0

/-- The boundary points the script extracts from the union geometry:
the exterior ring for a `Polygon`, the exterior ring of the largest-area
part for a `MultiPolygon`, and nothing for any other geometry type. -/
def boundaryOf : UGeom → Option (List Point)
  | .poly exterior => some exterior
  | .multi part0 parts => some (maxByArea part0 parts).1
  | .other => none

/-- `calculate_group_boundaries`: for each group (in dict order), build the
polygon list; skip the group if it is empty; otherwise extract the boundary
of the union geometry (skipping geometry types other than polygon and
multi-polygon). -/
def calculate_group_boundaries (uu : List (List Point) → UGeom) :
    List (Int × List Cell) → List (Int × List Point)
  | [] => []
  | g :: gs =>
    (if cellPolygons g.2 = [] then []
     else
       match boundaryOf (uu (cellPolygons g.2)) with
       | some pts => [(g.1, pts)]
       | none => []) ++ calculate_group_boundaries uu gs

/-- `np.roll(a, 1)`: rotate one step to the right (the last entry moves to
the front). -/
def roll1 : List Rat → List Rat
  | [] => []
  | x :: xs => (x :: xs).getLastD 0 :: (x :: xs).dropLast

/-- `np.dot` on two equal-length vectors. -/
def dotL (a b : List Rat) : Rat :=
  ((a.zip b).map (fun p => p.1 * p.2)).sum

/-- `cal_ployarea`: `0.5 * |dot(x, roll(y,1)) - dot(y, roll(x,1))|`. -/
def cal_ployarea (points : List Point) : Rat :=
  let x := points.map (fun p => p.1)
  let y := points.map (fun p => p.2)
  (0.5 : Rat) * |dotL x (roll1 y) - dotL y (roll1 x)|

/-- `np.ndarray.min` on a non-empty vector (the script never calls it on an
empty one; the `[]` case is junk). -/
def listMin : List Rat → Rat
  | [] => 0
  | x :: xs => xs.foldl min x

/-- `np.ndarray.max` on a non-empty vector. -/
def listMax : List Rat → Rat
  | [] => 0
  | x :: xs => xs.foldl max x

/-- One entry of the hard-coded `categories` list. -/
structure Category where
  supercategory : String
  id : Nat
  name : String
deriving DecidableEq

/-- The `schema == 0` category list of `_create_category`. -/
def _categories : List Category :=
  [⟨"layout", 1, "TableRow"⟩, ⟨"layout", 2, "TableColumn"⟩]

/-- `find_categories`: first id among categories with the given name
(the Python `[0]` on a miss would raise; junk value 0 here). -/
def find_categories (nm : String) : Nat :=
  (((_categories.filter (fun v => v.name == nm)).map (fun v => v.id)).headD 0)

/-- The `conversion` dict of `_create_category`. -/
def _categories_conversion : List (String × Nat) :=
  [("TableRow", find_categories "TableRow"),
   ("TableColumn", find_categories "TableColumn")]

/-- Dict lookup `_categories_conversion[obj_tag]` (a missing key would raise
`KeyError` in Python; junk value 0 here — the script only ever looks up the
two present tags). -/
def convLookup (tag : String) : Nat :=
  (((_categories_conversion.filter (fun p => p.1 == tag)).map (fun p => p.2)).headD 0)

/-- A COCO annotation record as built by `_anno_template`. -/
structure Anno where
  segmentation : List (List Rat)
  area : Rat
  iscrowd : Nat
  image_id : Nat
  bbox : List Rat
  category_id : Nat
  id : Nat
deriving DecidableEq

/-- `_anno_template`. -/
def _anno_template (anno_id image_id : Nat) (pts : List Point) (obj_tag : String) :
    Anno :=
  let x_1 := listMin (pts.map (fun p => p.1))
  let x_2 := listMax (pts.map (fun p => p.1))
  let y_1 := listMin (pts.map (fun p => p.2))
  let y_2 := listMax (pts.map (fun p => p.2))
  { segmentation := [pts.flatMap (fun p => [p.1, p.2])]
    area := cal_ployarea pts
    iscrowd := 0
    image_id := image_id
    bbox := [x_1, y_1, x_2 - x_1, y_2 - y_1]
    category_id := convLookup obj_tag
    id := anno_id }

/-- A COCO image record as built by `_image_template`. -/
structure ImageRec where
  file_name : String
  height : Nat
  width : Nat
  id : Nat
deriving DecidableEq

/-- `_image_template` (`imagesize.get` is embedded by carrying the image's
width and height in the dataset model). -/
def _image_template (image_id : Nat) (file_name : String) (width height : Nat) :
    ImageRec :=
  { file_name := file_name, height := height, width := width, id := image_id }

/-- One dataset entry of `PRIMADataset`: the image-id string (the annotation
file stem without the `pc-` prefix), whether `{image_id}.jpg` exists, its
size, and the parsed annotation: the `TableCell` lists of the `TableRegion`
elements in document order. -/
structure PFile where
  image_id : String
  imageExists : Bool
  width : Nat
  height : Nat
  regions : List (List Cell)
deriving DecidableEq

/-- The emission loop over one boundary list inside `convert_to_COCO`: emit
an annotation record (with the running `anno_id`) for each boundary with at
least 3 points. -/
def emitBoundaries (image_idx : Nat) (tag : String) :
    Nat → List (Int × List Point) → List Anno
  | _, [] => []
  | anno_id, b :: bs =>
    if 3 ≤ b.2.length then
      _anno_template anno_id image_idx b.2 tag :: emitBoundaries image_idx tag (anno_id + 1) bs
    else emitBoundaries image_idx tag anno_id bs

/-- Processing of one `TableRegion` inside `convert_to_COCO`: group the
cells, compute row and column boundaries, and emit row records then column
records, threading `anno_id`. -/
def processRegion (uu : List (List Point) → UGeom) (image_idx anno_id : Nat)
    (cells : List Cell) : List Anno :=
  let rc := group_cells_by_row_and_column cells
  let rowAnnos := emitBoundaries image_idx "TableRow" anno_id
    (calculate_group_boundaries uu rc.1)
  let colAnnos := emitBoundaries image_idx "TableColumn" (anno_id + rowAnnos.length)
    (calculate_group_boundaries uu rc.2)
  rowAnnos ++ colAnnos

/-- The `find_all('TableRegion')` loop of `convert_to_COCO` for one file. -/
def processRegions (uu : List (List Point) → UGeom) (image_idx : Nat) :
    Nat → List (List Cell) → List Anno
  | _, [] => []
  | anno_id, r :: rs =>
    let a := processRegion uu image_idx anno_id r
    a ++ processRegions uu image_idx (anno_id + a.length) rs

/-- The per-file loop of `convert_to_COCO`: `idx` is the `enumerate` index
over `self._ids`, `anno_id` the running annotation id. A file whose
`{image_id}.jpg` does not exist is skipped entirely (but still consumes its
`idx`). Returns the image records and annotation records. -/
def convGo (uu : List (List Point) → UGeom) :
    Nat → Nat → List PFile → List ImageRec × List Anno
  | _, _, [] => ([], [])
  | idx, anno_id, f :: fs =>
    if f.imageExists then
      let img := _image_template idx (f.image_id ++ ".jpg") f.width f.height
      let annos := processRegions uu idx anno_id f.regions
      let rest := convGo uu (idx + 1) (anno_id + annos.length) fs
      (img :: rest.1, annos ++ rest.2)
    else convGo uu (idx + 1) anno_id fs

/-- The fields of the `final_annotation` JSON object that the claims are
about (`info` and `licenses` are constants). -/
structure ConvOut where
  images : List ImageRec
  annotations : List Anno
  categories : List Category
deriving DecidableEq

/-- `PRIMADataset.convert_to_COCO` (its return value; writing the JSON file
is the identity on the returned structure). -/
def convert_to_COCO (uu : List (List Point) → UGeom) (files : List PFile) :
    ConvOut :=
  let r := convGo uu 0 0 files
  { images := r.1, annotations := r.2, categories := _categories }

/-!
Part 2 embeds `src/utils/download-voc.py`: the image downloader that
resolves inventory numbers through the EAD finding aid and page labels
through per-volume METS manifests.

`xml.etree.ElementTree` documents are embedded flatly: a parsed document is
given as the list of its elements in document order, each carrying its
qualified tag (ElementTree stores a namespaced tag as the string
`{uri}local`, and a path step without a prefix — as used throughout this
script — matches only the bare local name), its attribute list, its text
and its direct children. `r.findall(".//tag")` is then a filter over that
list. HTTP fetches are embedded as a total function from URL to response
(`raise_for_status` failures are out of scope of the claims), and the
relevant slice of the filesystem as explicit state.

String operations are re-implemented structurally over character lists so
that concrete runs reduce inside the kernel; `pySplit` follows Python
`str.split` with a non-empty separator (the only way the script calls it).
-/

/-- One step of Python `str.split(sep)` with non-empty `sep`: scan left to
right, cutting at each non-overlapping occurrence. `fuel` only drives the
recursion; `fuel = length + 1` is always enough. -/
def pySplitGo (sep : List Char) : Nat → List Char → List Char → List (List Char)
  | 0, _, acc => [acc.reverse]
  | _ + 1, [], acc => [acc.reverse]
  | fuel + 1, c :: rest, acc =>
    if sep.isPrefixOf (c :: rest) then
      acc.reverse :: pySplitGo sep fuel (List.drop sep.length (c :: rest)) []
    else pySplitGo sep fuel rest (c :: acc)

/-- Python `s.split(sep)` for non-empty `sep`. -/
def pySplit (s sep : String) : List String :=
  (pySplitGo sep.toList (s.toList.length + 1) s.toList []).map (fun cs => String.mk cs)

/-- `str.endswith` / suffix test, structurally over characters. -/
def strEndsWith (s suffix : String) : Bool :=
  suffix.toList.isSuffixOf s.toList

/-- `pathlib.Path.stem` for the names this script feeds it (names of files
globbed as `*.xml`): strip a final `.xml`; a bare `.xml` is a dotfile with
no suffix, so it is its own stem. -/
def pathStem (s : String) : String :=
  if strEndsWith s ".xml" && !(s == ".xml") then
    String.mk (s.toList.take (s.toList.length - 4))
  else s

/-- `extract_inventory_number`: `filename.split("1.04.02_")[1].split("_")[0]`;
`none` embeds the `ValueError` raised when `"1.04.02_"` does not occur
(the `[1]` raises `IndexError`). -/
def extract_inventory_number (filename : String) : Option String :=
  match (pySplit filename "1.04.02_").get? 1 with
  | none => none
  | some part => some ((pySplit part "_").headD "")

/-- An element of the flattened EAD document: qualified tag, attributes,
text (`None` when the element has no text node), and direct children
(themselves flattened one level: the script only ever looks one level below
a `did`). -/
structure XNode where
  tag : String
  attrs : List (String × String)
  text : Option String
deriving DecidableEq

/-- A document element together with its direct children. -/
structure XElem where
  tag : String
  attrs : List (String × String)
  text : Option String
  children : List XNode
deriving DecidableEq

/-- An EAD document, flattened: its elements in document order (what
`r.findall(".//t")` traverses). -/
abbrev EADDoc := List XElem

/-- `element.attrib.get(k)`. -/
def attrGet (attrs : List (String × String)) (k : String) : Option String :=
  ((attrs.find? (fun p => p.1 == k)).map (fun p => p.2))

/-- Python dict assignment `d[k] = v`: overwrite in place when the key is
present (insertion order of first occurrence kept), else append. -/
def dictInsertO (d : List (Option String × Option String)) (k v : Option String) :
    List (Option String × Option String) :=
  if d.any (fun p => p.1 == k) then
    d.map (fun p => if p.1 == k then (k, v) else p)
  else d ++ [(k, v)]

/-- `d.get(k)` on the unitid table with a (never-`None`) string key: `None`
both when the key is missing and when the stored value is `None`. -/
def dictGetS (d : List (Option String × Option String)) (k : String) : Option String :=
  match d.find? (fun p => p.1 == some k) with
  | some p => p.2
  | none => none

/-- `parse_unitid_mets`: over every element matching the path `.//did` (no
namespace prefix, so exactly the elements whose qualified tag is the bare
string `"did"`), take the first `unitid` child and the first `dao` child;
when both exist, assign `out[unitid.text] = dao.attrib.get('href')`. -/
def parse_unitid_mets (doc : EADDoc) : List (Option String × Option String) :=
  (doc.filter (fun e => e.tag == "did")).foldl
    (fun out did =>
      match did.children.find? (fun c => c.tag == "unitid"),
            did.children.find? (fun c => c.tag == "dao") with
      | some uid, some mets => dictInsertO out uid.text (attrGet mets.attrs "href")
      | _, _ => out)
    []

/-- A `mets:div` element of a METS manifest: its `LABEL` attribute and its
optional `ID` attribute. -/
structure MDiv where
  label : String
  idAttr : Option String
deriving DecidableEq

/-- A `mets:file` element: its `ID` attribute and its first `mets:FLocat`
child, if any, carrying an optional `xlink:href` attribute. -/
structure MFile where
  idAttr : String
  flocat : Option (Option String)
deriving DecidableEq

/-- A parsed METS manifest, flattened to the two element families the
script queries by attribute. -/
structure Mets where
  divs : List MDiv
  files : List MFile
deriving DecidableEq

/-- The extension loop of `find_image_url` over `(".tif", ".jpg")`. Each
failed lookup stage falls through to the next extension, except a found
`FLocat`: there the function returns `flocat.attrib.get(xlink:href)`
unconditionally, even when that attribute is absent (`None`). -/
def find_image_url_go (m : Mets) (label_without_ext : String) :
    List String → Option String
  | [] => none
  | ext :: rest =>
    match m.divs.find? (fun d => d.label == label_without_ext ++ ext) with
    | none => find_image_url_go m label_without_ext rest
    | some div_el =>
      match div_el.idAttr with
      | none => find_image_url_go m label_without_ext rest
      | some div_id =>
        if div_id == "" then find_image_url_go m label_without_ext rest
        else
          match m.files.find? (fun f => f.idAttr == div_id ++ "DEF") with
          | none => find_image_url_go m label_without_ext rest
          | some file_el =>
            match file_el.flocat with
            | none => find_image_url_go m label_without_ext rest
            | some href => href

/-- `find_image_url`. -/
def find_image_url (m : Mets) (label_without_ext : String) : Option String :=
  find_image_url_go m label_without_ext [".tif", ".jpg"]

/-- Python truthiness of an optional string (`if not x`). -/
def truthyO : Option String → Option String
  | none => none
  | some s => if s == "" then none else some s

/-- The downloader state a `process_file` call reads and writes: the
`processed_mets` set, the parsed contents of the METS files downloaded into
the target directory, and the names of the files in the target directory. -/
structure DlState where
  processedMets : List String
  metsStore : List (String × Mets)
  targetFiles : List String
deriving DecidableEq

/-- Create-or-overwrite of a file name in a directory listing. -/
def addFile (l : List String) (n : String) : List String :=
  if l.contains n then l else l ++ [n]

/-- `process_file`. The result is `none` when an exception escapes (the
`ValueError` of `extract_inventory_number`, which is raised outside the
`try`, or reading a METS file that was never downloaded); otherwise
`some (fetched, st)` where `fetched` records whether the page image was
downloaded. `network` maps a METS URL to the parsed manifest it serves. -/
def process_file (network : String → Mets) (xmlName : String)
    (unitid_mets : List (Option String × Option String)) (st : DlState) :
    Option (Bool × DlState) :=
  match extract_inventory_number xmlName with
  | none => none
  | some inv_no =>
    match truthyO (dictGetS unitid_mets inv_no) with
    | none => some (false, st)
    | some mets_url =>
      let st1 :=
        if st.processedMets.contains inv_no then st
        else
          { processedMets := inv_no :: st.processedMets
            metsStore := (inv_no, network mets_url) :: st.metsStore
            targetFiles := addFile st.targetFiles (inv_no ++ ".xml") }
      match st1.metsStore.find? (fun p => p.1 == inv_no) with
      | none => none
      | some entry =>
        let label := pathStem xmlName
        match truthyO (find_image_url entry.2 label) with
        | none => some (false, st1)
        | some _image_url =>
          if st1.targetFiles.contains (label ++ ".jpg") then some (false, st1)
          else
            some (true, { st1 with targetFiles := addFile st1.targetFiles (label ++ ".jpg") })

/-- The `for xml_file in renamed_files` loop of `main`. -/
def mainLoop (network : String → Mets)
    (unitid_mets : List (Option String × Option String)) :
    List String → DlState → Option DlState
  | [], st => some st
  | f :: fs, st =>
    match process_file network f unitid_mets st with
    | none => none
    | some r => mainLoop network unitid_mets fs r.2

/-- The tail of `main`: run the per-file loop, then delete every file of the
target directory matching `*.xml` (`pathlib` glob is `fnmatch`-based, so
`*` also matches a leading dot). Returns the final target-directory
listing, or `none` when the run did not complete normally. -/
def main_run (network : String → Mets)
    (unitid_mets : List (Option String × Option String))
    (files : List String) (st0 : DlState) : Option (List String) :=
  (mainLoop network unitid_mets files st0).map
    (fun st => st.targetFiles.filter (fun n => !(strEndsWith n ".xml")))

/-!
Part 3: specification-side definitions. These are written from the wording
of the specification and claims (not from the code) and are compared with
the embedded source functions by the theorems below, followed by the
concrete inputs used by counterexamples and witnesses.
-/

/-- Spec side, claim C9: the cross term `x_i * y_j - x_j * y_i` of the
shoelace formula. -/
def cross (p q : Point) : Rat := p.1 * q.2 - q.1 * p.2

/-- Spec side, claim C9: the cyclic shoelace sum
`sum over i of (x_i * y_suc - x_suc * y_i)`, wrapping from the last point
back to `first`. -/
def shoelaceSumAux (first : Point) : Point → List Point → Rat
  | prev, [] => cross prev first
  | prev, q :: qs => cross prev q + shoelaceSumAux first q qs

/-- Spec side, claim C9: the shoelace-formula area of a point sequence,
half the absolute value of the cyclic shoelace sum. -/
def shoelaceArea : List Point → Rat
  | [] => 0
  | p :: ps => |shoelaceSumAux p p ps| / 2

/-- Spec side, claim C1: a group "contains zero points" — the total number
of coordinate points over its cells is zero. -/
def zeroPointGroup (g : Int × List Cell) : Bool :=
  (g.2.map (fun c => c.coords.length)).sum == 0

/-- Spec side, amended claim C1: a group in which no cell has at least
three coordinate points (exactly the groups `calculate_group_boundaries`
drops before reaching the geometry library). -/
def degenerateGroup (g : Int × List Cell) : Bool :=
  g.2.all (fun c => c.coords.length < 3)

/-- Spec side, claim C3: the exterior boundary of a union geometry — all of
its exterior rings, not just the largest part's. -/
def unionExteriorRings : UGeom → List (List Point)
  | .poly exterior => [exterior]
  | .multi part0 parts => part0.1 :: parts.map (fun q => q.1)
  | .other => []

/-- Claim C4: the annotation records a run emits for the file of dataset
index `i`. -/
def annosFor (out : ConvOut) (i : Nat) : List Anno :=
  out.annotations.filter (fun a => a.image_id == i)

/-- Claim C4: the image records a run emits for the file of dataset index
`i`. -/
def imagesFor (out : ConvOut) (i : Nat) : List ImageRec :=
  out.images.filter (fun r => r.id == i)

/-- Claim C4 (amended): an annotation record with its id erased. -/
def eraseId (a : Anno) : Anno := { a with id := 0 }

/-- Spec side, claim C6: the `(unitid text, dao href)` pairs contributed by
the `did` elements having both a `unitid` and a `dao` child, in document
order. -/
def didEntries (doc : EADDoc) : List (Option String × Option String) :=
  (doc.filter (fun e => e.tag == "did")).filterMap
    (fun did =>
      match did.children.find? (fun c => c.tag == "unitid"),
            did.children.find? (fun c => c.tag == "dao") with
      | some uid, some mets => some (uid.text, attrGet mets.attrs "href")
      | _, _ => none)

/-- Lookup in an association list with unique keys (what a Python dict
denotes). -/
def dictLookupO (d : List (Option String × Option String)) (k : Option String) :
    Option (Option String) :=
  ((d.find? (fun p => p.1 == k)).map (fun p => p.2))

/-- Keys of a key-value list in first-occurrence order (the key order of a
Python dict built by repeated assignment). -/
def firstKeys : List Int → List Int
  | [] => []
  | k :: ks => k :: (firstKeys ks).filter (fun k2 => !(k2 == k))

/- Concrete inputs. -/

/-- A closed triangle ring, as shapely returns exterior rings (first point
repeated last). -/
def triRing : List Point := [(0, 0), (1, 0), (0, 1), (0, 0)]

/-- A concrete well-behaved geometry backend: every union is a single
polygon with the triangle ring as exterior. -/
def uuTri : List (List Point) → UGeom := fun _ => UGeom.poly triRing

/-- A triangle cell at row 0, column 0. -/
def cellTri : Cell := ⟨0, 0, [(0, 0), (1, 0), (0, 1)]⟩

/-- Claim C1 counterexample: a cell whose `Coords` has only two points. -/
def cellTwoPts : Cell := ⟨0, 0, [(0, 0), (1, 0)]⟩

/-- Claim C3 counterexample: the unit square at the origin. -/
def sq1 : List Point := [(0, 0), (1, 0), (1, 1), (0, 1)]

/-- Claim C3 counterexample: a far-away unit square. -/
def sq2 : List Point := [(10, 0), (11, 0), (11, 1), (10, 1)]

/-- Closed exterior ring of `sq1`. -/
def ring1 : List Point := [(0, 0), (1, 0), (1, 1), (0, 1), (0, 0)]

/-- Closed exterior ring of `sq2`. -/
def ring2 : List Point := [(10, 0), (11, 0), (11, 1), (10, 1), (10, 0)]

/-- Claim C3 counterexample geometry backend: on the two disjoint unit
squares it returns what `shapely.ops.unary_union` returns there — a
`MultiPolygon` with the two squares as parts, each of area 1. -/
def uuCex3 : List (List Point) → UGeom := fun polys =>
  if polys = [sq1, sq2] then UGeom.multi (ring1, 1) [(ring2, 1)] else UGeom.other

/-- Claim C3 counterexample: two cells in the same row (row 0), columns 0
and 1, with the two disjoint squares as coordinates. -/
def cells3 : List Cell := [⟨0, 0, sq1⟩, ⟨0, 1, sq2⟩]

/-- Claim C4: a file with an empty annotation. -/
def fileEmpty : PFile := ⟨"p0", true, 100, 100, []⟩

/-- Claim C4: the same file with one single-cell table region instead. -/
def fileTri : PFile := ⟨"p0", true, 100, 100, [[cellTri]]⟩

/-- Claim C4: an unchanged second file. -/
def fileSecond : PFile := ⟨"p1", true, 50, 50, [[cellTri]]⟩

/-- Claim C2 counterexample: a manifest resolving the label
`1.04.02_7673_0098` through its `.tif` div. -/
def metsCex : Mets :=
  ⟨[⟨"1.04.02_7673_0098.tif", some "D1"⟩], [⟨"D1DEF", some (some "http://img")⟩]⟩

/-- Claim C2 counterexample network: every METS URL serves `metsCex`. -/
def networkCex : String → Mets := fun _ => metsCex

/-- Claim C2 counterexample unitid table: inventory number 7673 has a METS
URL. -/
def umCex : List (Option String × Option String) := [(some "7673", some "http://mets")]

/-- Claim C2 counterexample state: fresh, except the page image already
exists in the target directory. -/
def stCex : DlState := ⟨[], [], ["1.04.02_7673_0098.jpg"]⟩

/-- Claim C10 witness state: a fresh target directory holding one stale
`.xml` file. -/
def stW10 : DlState := ⟨[], [], ["old.xml"]⟩

/-- Claim C6: a `did` element with a `unitid` child of text `t` and a `dao`
child with href `h`. -/
def didElem (t h : String) : XElem :=
  ⟨"did", [], none, [⟨"unitid", [], some t⟩, ⟨"dao", [("href", h)], none⟩]⟩

/-- Claim C6 counterexample document: two `did` elements sharing the unitid
text "1" with different hrefs. -/
def docCex : EADDoc := [⟨"ead", [], none, []⟩, didElem "1" "a", didElem "1" "b"]

/-- Proof helper: the open (no wrap-around) part of the cyclic cross-product
sum, seeded with a previous point. -/
def gD : Point → List Point → Rat
  | _, [] => 0
  | prev, q :: qs => (q.1 * prev.2 - q.2 * prev.1) + gD q qs

/-!
Part 4: theorems. Helper lemmas first, then one theorem per claim (with its
witness or counterexample).
-/

lemma foldl_min_le_init (xs : List Rat) : ∀ a : Rat, xs.foldl min a ≤ a := by
  induction xs with
  | nil => intro a; exact le_refl a
  | cons x xs ih =>
    intro a
    exact le_trans (ih (min a x)) (min_le_left a x)

lemma foldl_min_le_mem (xs : List Rat) : ∀ (a x : Rat), x ∈ xs → xs.foldl min a ≤ x := by
  induction xs with
  | nil => intro a x hx; cases hx
  | cons y ys ih =>
    intro a x hx
    rcases List.mem_cons.mp hx with h | h
    · subst h
      exact le_trans (foldl_min_le_init ys (min a x)) (min_le_right a x)
    · exact ih (min a y) x h

lemma foldl_min_mem (xs : List Rat) : ∀ a : Rat, xs.foldl min a ∈ a :: xs := by
  induction xs with
  | nil => intro a; exact List.mem_singleton.mpr rfl
  | cons x xs ih =>
    intro a
    have h := ih (min a x)
    rcases List.mem_cons.mp h with h1 | h1
    · rcases min_choice a x with h2 | h2
      · exact List.mem_cons.mpr (Or.inl (h1.trans h2))
      · refine List.mem_cons.mpr (Or.inr ?_)
        exact List.mem_cons.mpr (Or.inl (h1.trans h2))
    · exact List.mem_cons.mpr (Or.inr (List.mem_cons.mpr (Or.inr h1)))

lemma foldl_max_init_le (xs : List Rat) : ∀ a : Rat, a ≤ xs.foldl max a := by
  induction xs with
  | nil => intro a; exact le_refl a
  | cons x xs ih =>
    intro a
    exact le_trans (le_max_left a x) (ih (max a x))

lemma foldl_max_mem_le (xs : List Rat) : ∀ (a x : Rat), x ∈ xs → x ≤ xs.foldl max a := by
  induction xs with
  | nil => intro a x hx; cases hx
  | cons y ys ih =>
    intro a x hx
    rcases List.mem_cons.mp hx with h | h
    · subst h
      exact le_trans (le_max_right a x) (foldl_max_init_le ys (max a x))
    · exact ih (max a y) x h

lemma foldl_max_mem (xs : List Rat) : ∀ a : Rat, xs.foldl max a ∈ a :: xs := by
  induction xs with
  | nil => intro a; exact List.mem_singleton.mpr rfl
  | cons x xs ih =>
    intro a
    have h := ih (max a x)
    rcases List.mem_cons.mp h with h1 | h1
    · rcases max_choice a x with h2 | h2
      · exact List.mem_cons.mpr (Or.inl (h1.trans h2))
      · refine List.mem_cons.mpr (Or.inr ?_)
        exact List.mem_cons.mpr (Or.inl (h1.trans h2))
    · exact List.mem_cons.mpr (Or.inr (List.mem_cons.mpr (Or.inr h1)))

lemma listMin_le (x : Rat) (xs : List Rat) : ∀ y ∈ x :: xs, listMin (x :: xs) ≤ y := by
  intro y hy
  rcases List.mem_cons.mp hy with h | h
  · subst h; exact foldl_min_le_init xs y
  · exact foldl_min_le_mem xs x y h

lemma listMin_mem (x : Rat) (xs : List Rat) : listMin (x :: xs) ∈ x :: xs :=
  foldl_min_mem xs x

lemma le_listMax (x : Rat) (xs : List Rat) : ∀ y ∈ x :: xs, y ≤ listMax (x :: xs) := by
  intro y hy
  rcases List.mem_cons.mp hy with h | h
  · subst h; exact foldl_max_init_le xs y
  · exact foldl_max_mem_le xs x y h

lemma listMax_mem (x : Rat) (xs : List Rat) : listMax (x :: xs) ∈ x :: xs :=
  foldl_max_mem xs x

lemma dotL_cons (a b : Rat) (as bs : List Rat) :
    dotL (a :: as) (b :: bs) = a * b + dotL as bs := by
  simp [dotL]


lemma dot_drop_gD (l : List Point) : ∀ prev : Point,
    dotL (l.map (fun t => t.1)) ((prev :: l.dropLast).map (fun t => t.2))
      - dotL (l.map (fun t => t.2)) ((prev :: l.dropLast).map (fun t => t.1))
      = gD prev l := by
  induction l with
  | nil => intro prev; simp [dotL, gD]
  | cons q qs ih =>
    intro prev
    cases qs with
    | nil => simp [dotL, gD]
    | cons r rs =>
      rw [show (q :: r :: rs).dropLast = q :: (r :: rs).dropLast from rfl]
      have h2 := ih q
      simp only [List.map_cons, dotL_cons] at h2 ⊢
      rw [show gD prev (q :: r :: rs) = (q.1 * prev.2 - q.2 * prev.1) + gD q (r :: rs) from rfl]
      linarith [h2]

lemma shoelaceAux_gD (l : List Point) : ∀ first prev : Point,
    shoelaceSumAux first prev l = -(gD prev l) + cross (l.getLastD prev) first := by
  induction l with
  | nil => intro first prev; simp [shoelaceSumAux, gD, List.getLastD]
  | cons q qs ih =>
    intro first prev
    simp only [shoelaceSumAux, gD, List.getLastD_cons]
    rw [ih first q]
    simp only [cross]
    ring

lemma map_getLastD (f : Point → Rat) (l : List Point) : ∀ (q : Point) (d : Rat),
    ((q :: l).map f).getLastD d = f (l.getLastD q) := by
  induction l with
  | nil => intro q d; simp
  | cons r rs ih =>
    intro q d
    have h1 : ((q :: r :: rs).map f).getLastD d = ((r :: rs).map f).getLastD (f q) := by
      simp only [List.map_cons, List.getLastD_cons]
    rw [h1, ih r (f q)]
    simp only [List.getLastD_cons]

/-- The roll/dot difference inside `cal_ployarea`, in closed form: the wrap
term plus the open cross-product sum. -/
lemma Ddiff_eq (p : Point) (rest : List Point) :
    dotL ((p :: rest).map (fun t => t.1)) (roll1 ((p :: rest).map (fun t => t.2)))
      - dotL ((p :: rest).map (fun t => t.2)) (roll1 ((p :: rest).map (fun t => t.1)))
    = (p.1 * (rest.getLastD p).2 - p.2 * (rest.getLastD p).1) + gD p rest := by
  have hroll2 : roll1 ((p :: rest).map (fun t => t.2))
      = (rest.getLastD p).2 :: ((p :: rest).dropLast).map (fun t => t.2) := by
    show (((p :: rest).map (fun t => t.2)).getLastD 0) :: ((p :: rest).map (fun t => t.2)).dropLast
      = (rest.getLastD p).2 :: ((p :: rest).dropLast).map (fun t => t.2)
    rw [map_getLastD, List.map_dropLast]
  have hroll1 : roll1 ((p :: rest).map (fun t => t.1))
      = (rest.getLastD p).1 :: ((p :: rest).dropLast).map (fun t => t.1) := by
    show (((p :: rest).map (fun t => t.1)).getLastD 0) :: ((p :: rest).map (fun t => t.1)).dropLast
      = (rest.getLastD p).1 :: ((p :: rest).dropLast).map (fun t => t.1)
    rw [map_getLastD, List.map_dropLast]
  rw [hroll1, hroll2]
  cases rest with
  | nil =>
    simp [dotL, gD, List.getLastD]
  | cons r rs =>
    rw [show (p :: r :: rs).dropLast = p :: (r :: rs).dropLast from rfl]
    have h2 := dot_drop_gD (r :: rs) p
    simp only [List.map_cons, dotL_cons] at h2 ⊢
    linarith [h2]

/-- The numpy roll/dot computation of `cal_ployarea` agrees with the
shoelace formula on every non-empty point sequence. -/
lemma cal_ployarea_eq_shoelace (pts : List Point) (h : pts ≠ []) :
    cal_ployarea pts = shoelaceArea pts := by
  cases pts with
  | nil => exact absurd rfl h
  | cons p rest =>
    show (0.5 : Rat) * |dotL ((p :: rest).map (fun t => t.1)) (roll1 ((p :: rest).map (fun t => t.2)))
        - dotL ((p :: rest).map (fun t => t.2)) (roll1 ((p :: rest).map (fun t => t.1)))|
      = |shoelaceSumAux p p rest| / 2
    rw [Ddiff_eq p rest]
    have hS : shoelaceSumAux p p rest
        = -((p.1 * (rest.getLastD p).2 - p.2 * (rest.getLastD p).1) + gD p rest) := by
      rw [shoelaceAux_gD rest p p]
      simp only [cross]
      ring
    rw [hS, abs_neg]
    ring

/-- Claim C9: in every record built by `_anno_template` (on a non-empty
point list, as at all call sites), `bbox` is `[min x, min y, max x - min x,
max y - min y]` over the record's segmentation points — so the bbox encloses
every polygon point and its corners are attained — and `area` is the
shoelace-formula area of that point sequence. -/
theorem claim_C9_anno_template_bbox_area (n i : Nat) (pts : List Point) (tag : String)
    (h : pts ≠ []) :
    ∃ x1 y1 x2 y2 : Rat,
      (_anno_template n i pts tag).bbox = [x1, y1, x2 - x1, y2 - y1]
      ∧ (∀ p ∈ pts, x1 ≤ p.1 ∧ p.1 ≤ x2 ∧ y1 ≤ p.2 ∧ p.2 ≤ y2)
      ∧ x1 ∈ pts.map (fun p => p.1) ∧ x2 ∈ pts.map (fun p => p.1)
      ∧ y1 ∈ pts.map (fun p => p.2) ∧ y2 ∈ pts.map (fun p => p.2)
      ∧ (_anno_template n i pts tag).area = shoelaceArea pts
      ∧ (_anno_template n i pts tag).segmentation = [pts.flatMap (fun p => [p.1, p.2])] := by
  cases pts with
  | nil => exact absurd rfl h
  | cons q qs =>
    refine ⟨listMin ((q :: qs).map (fun p => p.1)), listMin ((q :: qs).map (fun p => p.2)),
      listMax ((q :: qs).map (fun p => p.1)), listMax ((q :: qs).map (fun p => p.2)),
      ?_, ?_, ?_, ?_, ?_, ?_, ?_, ?_⟩
    · rfl
    · intro p hp
      have h1 : p.1 ∈ (q :: qs).map (fun p => p.1) := List.mem_map_of_mem _ hp
      have h2 : p.2 ∈ (q :: qs).map (fun p => p.2) := List.mem_map_of_mem _ hp
      simp only [List.map_cons] at h1 h2 ⊢
      exact ⟨listMin_le _ _ _ h1, le_listMax _ _ _ h1, listMin_le _ _ _ h2, le_listMax _ _ _ h2⟩
    · simp only [List.map_cons]; exact listMin_mem _ _
    · simp only [List.map_cons]; exact listMax_mem _ _
    · simp only [List.map_cons]; exact listMin_mem _ _
    · simp only [List.map_cons]; exact listMax_mem _ _
    · exact cal_ployarea_eq_shoelace _ h
    · rfl

/-- Claim C9 witness: the theorem applied to a concrete triangle. -/
theorem claim_C9_witness :
    ([((0 : Rat), (0 : Rat)), (1, 0), (0, 1)] : List Point) ≠ []
    ∧ ∃ x1 y1 x2 y2 : Rat,
      (_anno_template 0 0 [((0 : Rat), (0 : Rat)), (1, 0), (0, 1)] "TableRow").bbox
          = [x1, y1, x2 - x1, y2 - y1]
      ∧ (∀ p ∈ ([((0 : Rat), (0 : Rat)), (1, 0), (0, 1)] : List Point),
          x1 ≤ p.1 ∧ p.1 ≤ x2 ∧ y1 ≤ p.2 ∧ p.2 ≤ y2)
      ∧ x1 ∈ ([((0 : Rat), (0 : Rat)), (1, 0), (0, 1)] : List Point).map (fun p => p.1)
      ∧ x2 ∈ ([((0 : Rat), (0 : Rat)), (1, 0), (0, 1)] : List Point).map (fun p => p.1)
      ∧ y1 ∈ ([((0 : Rat), (0 : Rat)), (1, 0), (0, 1)] : List Point).map (fun p => p.2)
      ∧ y2 ∈ ([((0 : Rat), (0 : Rat)), (1, 0), (0, 1)] : List Point).map (fun p => p.2)
      ∧ (_anno_template 0 0 [((0 : Rat), (0 : Rat)), (1, 0), (0, 1)] "TableRow").area
          = shoelaceArea [((0 : Rat), (0 : Rat)), (1, 0), (0, 1)]
      ∧ (_anno_template 0 0 [((0 : Rat), (0 : Rat)), (1, 0), (0, 1)] "TableRow").segmentation
          = [([((0 : Rat), (0 : Rat)), (1, 0), (0, 1)] : List Point).flatMap (fun p => [p.1, p.2])] :=
  ⟨by decide, claim_C9_anno_template_bbox_area 0 0 _ "TableRow" (by decide)⟩

lemma mem_firstKeys (l : List Int) (k : Int) : k ∈ firstKeys l ↔ k ∈ l := by
  induction l with
  | nil => simp [firstKeys]
  | cons a l ih =>
    simp only [firstKeys, List.mem_cons, List.mem_filter, ih, Bool.not_eq_true',
      beq_eq_false_iff_ne, ne_eq]
    constructor
    · rintro (h | ⟨h1, _⟩)
      · exact Or.inl h
      · exact Or.inr h1
    · rintro (h | h1)
      · exact Or.inl h
      · by_cases hk : k = a
        · exact Or.inl hk
        · exact Or.inr ⟨h1, hk⟩

lemma firstKeys_concat (l : List Int) (k : Int) :
    firstKeys (l ++ [k]) = if k ∈ l then firstKeys l else firstKeys l ++ [k] := by
  induction l with
  | nil => simp [firstKeys]
  | cons a l ih =>
    simp only [List.cons_append, firstKeys, List.append_eq]
    rw [ih]
    by_cases h : k ∈ l
    · rw [if_pos h, if_pos (List.mem_cons.mpr (Or.inr h))]
    · by_cases hka : k = a
      · subst hka
        rw [if_neg h, if_pos (List.mem_cons_self k l)]
        rw [List.filter_append]
        simp
      · rw [if_neg h, if_neg (fun hc => (List.mem_cons.mp hc).elim hka h)]
        rw [List.filter_append]
        simp [hka]

lemma firstKeys_nodup (l : List Int) : (firstKeys l).Nodup := by
  induction l with
  | nil => simp [firstKeys]
  | cons a l ih =>
    simp only [firstKeys, List.nodup_cons]
    refine ⟨?_, ih.filter _⟩
    intro hmem
    have h2 := (List.mem_filter.mp hmem).2
    simp at h2

lemma dictBuild_eq (key : Cell → Int) (cells : List Cell) :
    cells.foldl (fun d c => dictAppend d (key c) c) []
      = (firstKeys (cells.map key)).map
          (fun k => (k, cells.filter (fun c => key c == k))) := by
  induction cells using List.reverseRecOn with
  | nil => simp [firstKeys]
  | append_singleton cells c ih =>
    rw [List.foldl_append, ih]
    simp only [List.foldl_cons, List.foldl_nil]
    rw [List.map_append]
    simp only [List.map_cons, List.map_nil]
    rw [firstKeys_concat]
    by_cases h : key c ∈ cells.map key
    · rw [if_pos h]
      unfold dictAppend
      have hany : (((firstKeys (cells.map key)).map
          (fun k => (k, cells.filter (fun x => key x == k)))).any
            (fun p => p.1 == key c)) = true := by
        rw [List.any_eq_true]
        exact ⟨(key c, cells.filter (fun x => key x == key c)),
          List.mem_map_of_mem _ ((mem_firstKeys _ _).mpr h), by simp⟩
      rw [if_pos hany]
      rw [List.map_map]
      apply List.map_congr_left
      intro k hk
      by_cases hkc : k = key c
      · subst hkc
        simp [List.filter_append]
      · have hck : ¬ (key c = k) := fun hc => hkc hc.symm
        simp [List.filter_append, hkc, hck]
    · rw [if_neg h]
      unfold dictAppend
      have hany : (((firstKeys (cells.map key)).map
          (fun k => (k, cells.filter (fun x => key x == k)))).any
            (fun p => p.1 == key c)) = false := by
        rw [List.any_eq_false]
        intro p hp
        obtain ⟨k, hk, rfl⟩ := List.mem_map.mp hp
        have hkmem : k ∈ cells.map key := (mem_firstKeys _ _).mp hk
        have hne : k ≠ key c := fun hc => h (hc ▸ hkmem)
        exact fun hc => hne (beq_iff_eq.mp hc)
      have hcond : ¬ ((((firstKeys (cells.map key)).map
          (fun k => (k, cells.filter (fun x => key x == k)))).any
            (fun p => p.1 == key c)) = true) := by
        rw [hany]; exact Bool.false_ne_true
      rw [if_neg hcond, List.map_append]
      congr 1
      · apply List.map_congr_left
        intro k hk
        have hkmem : k ∈ cells.map key := (mem_firstKeys _ _).mp hk
        have hck : ¬ (key c = k) := by
          intro hc
          exact h (hc ▸ hkmem)
        simp [List.filter_append, hck]
      · have hnil : cells.filter (fun x => key x == key c) = [] := by
          rw [List.filter_eq_nil_iff]
          intro x hx
          simp only [beq_iff_eq]
          intro hc
          exact h (hc ▸ List.mem_map_of_mem key hx)
        simp [List.filter_append, hnil]

lemma group_fst (cells : List Cell) : ∀ r c : List (Int × List Cell),
    (cells.foldl
      (fun rc cell => (dictAppend rc.1 cell.row cell, dictAppend rc.2 cell.col cell))
      (r, c)).1
      = cells.foldl (fun d cell => dictAppend d cell.row cell) r := by
  induction cells with
  | nil => intros; rfl
  | cons x xs ih =>
    intro r c
    simp only [List.foldl_cons]
    exact ih _ _

lemma group_snd (cells : List Cell) : ∀ r c : List (Int × List Cell),
    (cells.foldl
      (fun rc cell => (dictAppend rc.1 cell.row cell, dictAppend rc.2 cell.col cell))
      (r, c)).2
      = cells.foldl (fun d cell => dictAppend d cell.col cell) c := by
  induction cells with
  | nil => intros; rfl
  | cons x xs ih =>
    intro r c
    simp only [List.foldl_cons]
    exact ih _ _

/-- The row dict of `group_cells_by_row_and_column`, in closed form: one
entry per distinct row key in first-occurrence order, carrying the cells
with that key in input order. -/
lemma rows_eq (cells : List Cell) :
    (group_cells_by_row_and_column cells).1
      = (firstKeys (cells.map (fun c => c.row))).map
          (fun k => (k, cells.filter (fun c => c.row == k))) := by
  unfold group_cells_by_row_and_column
  rw [group_fst cells [] []]
  exact dictBuild_eq (fun c => c.row) cells

/-- The column dict of `group_cells_by_row_and_column`, in closed form. -/
lemma cols_eq (cells : List Cell) :
    (group_cells_by_row_and_column cells).2
      = (firstKeys (cells.map (fun c => c.col))).map
          (fun k => (k, cells.filter (fun c => c.col == k))) := by
  unfold group_cells_by_row_and_column
  rw [group_snd cells [] []]
  exact dictBuild_eq (fun c => c.col) cells

/-- Claim C5: `group_cells_by_row_and_column` places every input cell into
exactly one row group (keyed by its `row` value) and exactly one column
group (keyed by its `col` value): the group keys are pairwise distinct, the
group keyed `k` is exactly the input-order list of the cells whose key
equals `k` (so two cells share a row/column group iff their integer keys
are equal), and every cell's key owns a group containing it. -/
theorem claim_C5_grouping (cells : List Cell) :
    (((group_cells_by_row_and_column cells).1.map (fun g => g.1)).Nodup
      ∧ (∀ c ∈ cells,
          (c.row, cells.filter (fun x => x.row == c.row))
            ∈ (group_cells_by_row_and_column cells).1
          ∧ c ∈ cells.filter (fun x => x.row == c.row))
      ∧ (∀ g ∈ (group_cells_by_row_and_column cells).1,
          g.2 = cells.filter (fun x => x.row == g.1)))
    ∧ (((group_cells_by_row_and_column cells).2.map (fun g => g.1)).Nodup
      ∧ (∀ c ∈ cells,
          (c.col, cells.filter (fun x => x.col == c.col))
            ∈ (group_cells_by_row_and_column cells).2
          ∧ c ∈ cells.filter (fun x => x.col == c.col))
      ∧ (∀ g ∈ (group_cells_by_row_and_column cells).2,
          g.2 = cells.filter (fun x => x.col == g.1))) := by
  constructor
  · rw [rows_eq]
    refine ⟨?_, ?_, ?_⟩
    · rw [List.map_map]
      have hid : ((fun g : Int × List Cell => g.1) ∘
          (fun k => (k, cells.filter (fun c => c.row == k)))) = id := rfl
      rw [hid, List.map_id]
      exact firstKeys_nodup _
    · intro c hc
      constructor
      · exact List.mem_map_of_mem _
          ((mem_firstKeys _ _).mpr (List.mem_map_of_mem (fun x => x.row) hc))
      · exact List.mem_filter.mpr ⟨hc, by simp⟩
    · intro g hg
      obtain ⟨k, _, rfl⟩ := List.mem_map.mp hg
      rfl
  · rw [cols_eq]
    refine ⟨?_, ?_, ?_⟩
    · rw [List.map_map]
      have hid : ((fun g : Int × List Cell => g.1) ∘
          (fun k => (k, cells.filter (fun c => c.col == k)))) = id := rfl
      rw [hid, List.map_id]
      exact firstKeys_nodup _
    · intro c hc
      constructor
      · exact List.mem_map_of_mem _
          ((mem_firstKeys _ _).mpr (List.mem_map_of_mem (fun x => x.col) hc))
      · exact List.mem_filter.mpr ⟨hc, by simp⟩
    · intro g hg
      obtain ⟨k, _, rfl⟩ := List.mem_map.mp hg
      rfl

/-- Claim C5 witness: the theorem applied to a concrete two-cell list. -/
theorem claim_C5_witness :
    cellTri ∈ [cellTri, cellTwoPts]
    ∧ (cellTri.row, [cellTri, cellTwoPts].filter (fun x => x.row == cellTri.row))
        ∈ (group_cells_by_row_and_column [cellTri, cellTwoPts]).1
    ∧ cellTri ∈ [cellTri, cellTwoPts].filter (fun x => x.row == cellTri.row) :=
  ⟨by decide,
    ((claim_C5_grouping [cellTri, cellTwoPts]).1.2.1 cellTri (by decide)).1,
    ((claim_C5_grouping [cellTri, cellTwoPts]).1.2.1 cellTri (by decide)).2⟩

lemma emit_length_of_big (image_idx : Nat) (tag : String) (bs : List (Int × List Point))
    (h : ∀ b ∈ bs, 3 ≤ b.2.length) : ∀ n, (emitBoundaries image_idx tag n bs).length = bs.length := by
  induction bs with
  | nil => intro n; rfl
  | cons b bs ih =>
    intro n
    have hb : 3 ≤ b.2.length := h b (List.mem_cons_self b bs)
    simp only [emitBoundaries, if_pos hb, List.length_cons]
    rw [ih (fun x hx => h x (List.mem_cons.mpr (Or.inr hx))) (n + 1)]

lemma cellPolygons_eq_nil (l : List Cell) :
    cellPolygons l = [] ↔ l.all (fun c => c.coords.length < 3) = true := by
  simp only [cellPolygons, List.filterMap_eq_nil_iff, List.all_eq_true]
  constructor
  · intro h c hc
    have h2 := h c hc
    by_cases h3 : 3 ≤ c.coords.length
    · rw [if_pos h3] at h2; cases h2
    · simp only [decide_eq_true_eq]; omega
  · intro h c hc
    have h2 := h c hc
    simp only [decide_eq_true_eq] at h2
    rw [if_neg (by omega)]

lemma cgb_mem (uu : List (List Point) → UGeom) (group : List (Int × List Cell)) :
    ∀ k pts, (k, pts) ∈ calculate_group_boundaries uu group →
      ∃ cl, (k, cl) ∈ group ∧ cellPolygons cl ≠ []
        ∧ boundaryOf (uu (cellPolygons cl)) = some pts := by
  induction group with
  | nil => intro k pts h; cases h
  | cons g gs ih =>
    intro k pts h
    simp only [calculate_group_boundaries] at h
    rcases List.mem_append.mp h with h1 | h1
    · by_cases hnil : cellPolygons g.2 = []
      · rw [if_pos hnil] at h1; cases h1
      · rw [if_neg hnil] at h1
        cases hb : boundaryOf (uu (cellPolygons g.2)) with
        | none => rw [hb] at h1; cases h1
        | some pts2 =>
          rw [hb] at h1
          have h2 := List.mem_singleton.mp h1
          have hk : k = g.1 := congrArg Prod.fst h2
          have hp : pts = pts2 := congrArg Prod.snd h2
          subst hk; subst hp
          exact ⟨g.2, List.mem_cons_self _ _, hnil, hb⟩
    · obtain ⟨cl, hcl, h2, h3⟩ := ih k pts h1
      exact ⟨cl, List.mem_cons.mpr (Or.inr hcl), h2, h3⟩

lemma cgb_big (uu : List (List Point) → UGeom)
    (Huu : ∀ polys, polys ≠ [] → ∃ pts, boundaryOf (uu polys) = some pts ∧ 3 ≤ pts.length)
    (group : List (Int × List Cell)) :
    ∀ b ∈ calculate_group_boundaries uu group, 3 ≤ b.2.length := by
  intro b hb
  obtain ⟨cl, _, hnil, hbd⟩ := cgb_mem uu group b.1 b.2 hb
  obtain ⟨pts, hpts, hlen⟩ := Huu (cellPolygons cl) hnil
  rw [hbd] at hpts
  have : b.2 = pts := Option.some_injective _ hpts
  rw [this]
  exact hlen

lemma cgb_length (uu : List (List Point) → UGeom)
    (Huu : ∀ polys, polys ≠ [] → ∃ pts, boundaryOf (uu polys) = some pts ∧ 3 ≤ pts.length)
    (group : List (Int × List Cell)) :
    (calculate_group_boundaries uu group).length
      = (group.filter (fun g => !(degenerateGroup g))).length := by
  induction group with
  | nil => rfl
  | cons g gs ih =>
    simp only [calculate_group_boundaries, List.length_append, ih, List.filter_cons]
    by_cases hnil : cellPolygons g.2 = []
    · have hdeg : degenerateGroup g = true := by
        unfold degenerateGroup
        exact (cellPolygons_eq_nil g.2).mp hnil
      rw [if_pos hnil, hdeg]
      simp
    · have hdeg : degenerateGroup g = false := by
        by_contra hc
        have : degenerateGroup g = true := by
          cases h2 : degenerateGroup g
          · exact absurd h2 hc
          · rfl
        exact hnil ((cellPolygons_eq_nil g.2).mpr this)
      obtain ⟨pts, hpts, _⟩ := Huu (cellPolygons g.2) hnil
      rw [if_neg hnil, hpts, hdeg]
      simp [Nat.add_comm]

/-- Claim C1 counterexample: a region consisting of one cell with only two
coordinate points. Its single row group and single column group both
contain two points (not zero), yet no annotation record is emitted: the
record count is 0, while the claim predicts `1 + 1 - 0 = 2`. -/
theorem claim_C1_counterexample :
    (processRegion uuTri 0 0 [cellTwoPts]).length = 0
    ∧ (group_cells_by_row_and_column [cellTwoPts]).1.length
        + (group_cells_by_row_and_column [cellTwoPts]).2.length = 2
    ∧ ((group_cells_by_row_and_column [cellTwoPts]).1.filter zeroPointGroup).length
        + ((group_cells_by_row_and_column [cellTwoPts]).2.filter zeroPointGroup).length = 0
    ∧ (processRegion uuTri 0 0 [cellTwoPts]).length
        ≠ ((group_cells_by_row_and_column [cellTwoPts]).1.length
            + (group_cells_by_row_and_column [cellTwoPts]).2.length)
          - (((group_cells_by_row_and_column [cellTwoPts]).1.filter zeroPointGroup).length
            + ((group_cells_by_row_and_column [cellTwoPts]).2.filter zeroPointGroup).length) :=
  ⟨by decide, by decide, by decide, by decide⟩

/-- Claim C1 (amended): provided the geometry union of every non-empty
polygon collection yields a polygonal boundary of at least three points (as
the shapely pipeline does on the script's inputs), the number of annotation
records emitted for a table region equals the number of its row groups plus
the number of its column groups, minus exactly those groups in which no
cell has at least three coordinate points. -/
theorem claim_C1_amended_region_count (uu : List (List Point) → UGeom)
    (Huu : ∀ polys, polys ≠ [] → ∃ pts, boundaryOf (uu polys) = some pts ∧ 3 ≤ pts.length)
    (cells : List Cell) (image_idx anno_id : Nat) :
    (processRegion uu image_idx anno_id cells).length
      = ((group_cells_by_row_and_column cells).1.length
          + (group_cells_by_row_and_column cells).2.length)
        - (((group_cells_by_row_and_column cells).1.filter degenerateGroup).length
          + ((group_cells_by_row_and_column cells).2.filter degenerateGroup).length) := by
  unfold processRegion
  rw [List.length_append]
  rw [emit_length_of_big _ _ _ (cgb_big uu Huu _) _]
  rw [emit_length_of_big _ _ _ (cgb_big uu Huu _) _]
  rw [cgb_length uu Huu, cgb_length uu Huu]
  have h1 := List.length_eq_length_filter_add
    (l := (group_cells_by_row_and_column cells).1) degenerateGroup
  have h2 := List.length_eq_length_filter_add
    (l := (group_cells_by_row_and_column cells).2) degenerateGroup
  omega

/-- Claim C1 witness: the amended theorem applied to a region with one
triangle cell, the hypothesis discharged for the concrete geometry `uuTri`. -/
theorem claim_C1_witness :
    (∀ polys : List (List Point), polys ≠ [] →
      ∃ pts, boundaryOf (uuTri polys) = some pts ∧ 3 ≤ pts.length)
    ∧ (processRegion uuTri 0 0 [cellTri]).length
        = ((group_cells_by_row_and_column [cellTri]).1.length
            + (group_cells_by_row_and_column [cellTri]).2.length)
          - (((group_cells_by_row_and_column [cellTri]).1.filter degenerateGroup).length
            + ((group_cells_by_row_and_column [cellTri]).2.filter degenerateGroup).length) :=
  ⟨fun _ _ => ⟨triRing, rfl, by decide⟩,
   claim_C1_amended_region_count uuTri (fun _ _ => ⟨triRing, rfl, by decide⟩) [cellTri] 0 0⟩

lemma emit_mem (image_idx : Nat) (tag : String) (bs : List (Int × List Point)) :
    ∀ n a, a ∈ emitBoundaries image_idx tag n bs →
      ∃ k pts, (k, pts) ∈ bs ∧ 3 ≤ pts.length
        ∧ a = _anno_template a.id image_idx pts tag := by
  induction bs with
  | nil => intro n a h; cases h
  | cons b bs ih =>
    intro n a h
    by_cases hb : 3 ≤ b.2.length
    · simp only [emitBoundaries, if_pos hb] at h
      rcases List.mem_cons.mp h with h1 | h1
      · subst h1
        exact ⟨b.1, b.2, List.mem_cons_self _ _, hb, rfl⟩
      · obtain ⟨k, pts, h2, h3, h4⟩ := ih (n + 1) a h1
        exact ⟨k, pts, List.mem_cons.mpr (Or.inr h2), h3, h4⟩
    · simp only [emitBoundaries, if_neg hb] at h
      obtain ⟨k, pts, h2, h3, h4⟩ := ih n a h
      exact ⟨k, pts, List.mem_cons.mpr (Or.inr h2), h3, h4⟩

/-- Claim C3 counterexample: one row group whose two cells are disjoint unit
squares. The union is a multi-polygon with exterior boundary made of both
rings, but the emitted record's segmentation polygon is only the first
(largest-area) ring: the point (10, 0) lies on the union's exterior
boundary and not in the emitted polygon. -/
theorem claim_C3_counterexample :
    (calculate_group_boundaries uuCex3 (group_cells_by_row_and_column cells3).1).map
        Prod.snd = [ring1]
    ∧ unionExteriorRings (uuCex3 (cellPolygons cells3)) = [ring1, ring2]
    ∧ (calculate_group_boundaries uuCex3 (group_cells_by_row_and_column cells3).1).map
        Prod.snd ≠ unionExteriorRings (uuCex3 (cellPolygons cells3))
    ∧ ((10 : Rat), (0 : Rat)) ∈ ring2
    ∧ ((10 : Rat), (0 : Rat)) ∉ ring1 :=
  ⟨by decide, by decide, by decide, by decide, by decide⟩

/-- Claim C3 (amended): every annotation record a table region emits comes
from a row group (as a TableRow record) or a column group (as a TableColumn
record) whose polygon collection is non-empty; its point list is the
exterior ring of the union geometry when that is a single polygon, and the
exterior ring of its largest-area part when it is a multi-polygon (that is,
`boundaryOf` of the union); and the record is the bounding-box-plus-polygon
record `_anno_template` builds from those points. -/
theorem claim_C3_amended_segmentation (uu : List (List Point) → UGeom)
    (image_idx anno_id : Nat) (cells : List Cell) :
    ∀ a ∈ processRegion uu image_idx anno_id cells,
      ∃ k cl pts tag,
        ((tag = "TableRow" ∧ (k, cl) ∈ (group_cells_by_row_and_column cells).1)
          ∨ (tag = "TableColumn" ∧ (k, cl) ∈ (group_cells_by_row_and_column cells).2))
        ∧ cellPolygons cl ≠ []
        ∧ boundaryOf (uu (cellPolygons cl)) = some pts
        ∧ 3 ≤ pts.length
        ∧ a = _anno_template a.id image_idx pts tag
        ∧ a.segmentation = [pts.flatMap (fun p => [p.1, p.2])] := by
  intro a ha
  unfold processRegion at ha
  rcases List.mem_append.mp ha with h | h
  · obtain ⟨k, pts, hmem, hlen, hrepr⟩ := emit_mem _ _ _ _ a h
    obtain ⟨cl, hcl, hnil, hbd⟩ := cgb_mem uu _ k pts hmem
    exact ⟨k, cl, pts, "TableRow", Or.inl ⟨rfl, hcl⟩, hnil, hbd, hlen, hrepr,
      by rw [hrepr]; rfl⟩
  · obtain ⟨k, pts, hmem, hlen, hrepr⟩ := emit_mem _ _ _ _ a h
    obtain ⟨cl, hcl, hnil, hbd⟩ := cgb_mem uu _ k pts hmem
    exact ⟨k, cl, pts, "TableColumn", Or.inr ⟨rfl, hcl⟩, hnil, hbd, hlen, hrepr,
      by rw [hrepr]; rfl⟩

/-- Claim C3 witness: the amended theorem applied to the first record
emitted for a one-cell region under the concrete geometry `uuTri`. -/
theorem claim_C3_witness :
    _anno_template 0 0 triRing "TableRow" ∈ processRegion uuTri 0 0 [cellTri]
    ∧ ∃ k cl pts tag,
      ((tag = "TableRow" ∧ (k, cl) ∈ (group_cells_by_row_and_column [cellTri]).1)
        ∨ (tag = "TableColumn" ∧ (k, cl) ∈ (group_cells_by_row_and_column [cellTri]).2))
      ∧ cellPolygons cl ≠ []
      ∧ boundaryOf (uuTri (cellPolygons cl)) = some pts
      ∧ 3 ≤ pts.length
      ∧ _anno_template 0 0 triRing "TableRow"
          = _anno_template (_anno_template 0 0 triRing "TableRow").id 0 pts tag
      ∧ (_anno_template 0 0 triRing "TableRow").segmentation
          = [pts.flatMap (fun p => [p.1, p.2])] := by
  have hmem : _anno_template 0 0 triRing "TableRow" ∈ processRegion uuTri 0 0 [cellTri] := by
    have hlist : processRegion uuTri 0 0 [cellTri]
        = [_anno_template 0 0 triRing "TableRow", _anno_template 1 0 triRing "TableColumn"] := rfl
    rw [hlist]
    exact List.mem_cons_self _ _
  exact ⟨hmem, claim_C3_amended_segmentation uuTri 0 0 [cellTri] _ hmem⟩

lemma emit_category (image_idx : Nat) (tag : String) (bs : List (Int × List Point)) :
    ∀ n a, a ∈ emitBoundaries image_idx tag n bs → a.category_id = convLookup tag := by
  induction bs with
  | nil => intro n a h; cases h
  | cons b bs ih =>
    intro n a h
    by_cases hb : 3 ≤ b.2.length
    · simp only [emitBoundaries, if_pos hb] at h
      rcases List.mem_cons.mp h with h1 | h1
      · subst h1; rfl
      · exact ih (n + 1) a h1
    · simp only [emitBoundaries, if_neg hb] at h
      exact ih n a h

lemma processRegion_category (uu : List (List Point) → UGeom)
    (image_idx anno_id : Nat) (cells : List Cell) :
    ∀ a ∈ processRegion uu image_idx anno_id cells,
      a.category_id = 1 ∨ a.category_id = 2 := by
  intro a ha
  unfold processRegion at ha
  rcases List.mem_append.mp ha with h | h
  · exact Or.inl (emit_category _ _ _ _ a h)
  · exact Or.inr (emit_category _ _ _ _ a h)

lemma processRegions_category (uu : List (List Point) → UGeom) (image_idx : Nat)
    (rs : List (List Cell)) :
    ∀ n a, a ∈ processRegions uu image_idx n rs →
      a.category_id = 1 ∨ a.category_id = 2 := by
  induction rs with
  | nil => intro n a h; cases h
  | cons r rs ih =>
    intro n a h
    simp only [processRegions] at h
    rcases List.mem_append.mp h with h1 | h1
    · exact processRegion_category uu image_idx n r a h1
    · exact ih _ a h1

lemma convGo_category (uu : List (List Point) → UGeom) (files : List PFile) :
    ∀ idx n a, a ∈ (convGo uu idx n files).2 →
      a.category_id = 1 ∨ a.category_id = 2 := by
  induction files with
  | nil => intro idx n a h; cases h
  | cons f fs ih =>
    intro idx n a h
    simp only [convGo] at h
    by_cases hex : f.imageExists
    · rw [if_pos hex] at h
      rcases List.mem_append.mp h with h1 | h1
      · exact processRegions_category uu idx f.regions n a h1
      · exact ih (idx + 1) _ a h1
    · rw [if_neg hex] at h
      exact ih (idx + 1) n a h

/-- Claim C7: every annotation record in the converter's output has
category id 1 (TableRow) or 2 (TableColumn), and the output's `categories`
list is exactly the two hard-coded categories. -/
theorem claim_C7_categories (uu : List (List Point) → UGeom) (files : List PFile) :
    ((convert_to_COCO uu files).annotations.all
        (fun a => a.category_id == 1 || a.category_id == 2)) = true
    ∧ (convert_to_COCO uu files).categories
        = [⟨"layout", 1, "TableRow"⟩, ⟨"layout", 2, "TableColumn"⟩] := by
  constructor
  · rw [List.all_eq_true]
    intro a ha
    rcases convGo_category uu files 0 0 a ha with h | h
    · rw [h]; rfl
    · rw [h]; rfl
  · rfl

lemma emit_map_id (image_idx : Nat) (tag : String) (bs : List (Int × List Point)) :
    ∀ n, (emitBoundaries image_idx tag n bs).map (fun a => a.id)
      = List.range' n (emitBoundaries image_idx tag n bs).length := by
  induction bs with
  | nil => intro n; rfl
  | cons b bs ih =>
    intro n
    by_cases hb : 3 ≤ b.2.length
    · simp only [emitBoundaries, if_pos hb, List.map_cons, List.length_cons]
      rw [ih (n + 1), List.range'_succ]
      rfl
    · simp only [emitBoundaries, if_neg hb]
      exact ih n

lemma processRegion_map_id (uu : List (List Point) → UGeom) (image_idx : Nat)
    (cells : List Cell) : ∀ n, (processRegion uu image_idx n cells).map (fun a => a.id)
      = List.range' n (processRegion uu image_idx n cells).length := by
  intro n
  unfold processRegion
  rw [List.map_append, emit_map_id, emit_map_id, List.length_append]
  simpa [Nat.add_comm] using List.range'_append_1 n _ _

lemma processRegions_map_id (uu : List (List Point) → UGeom) (image_idx : Nat)
    (rs : List (List Cell)) : ∀ n, (processRegions uu image_idx n rs).map (fun a => a.id)
      = List.range' n (processRegions uu image_idx n rs).length := by
  induction rs with
  | nil => intro n; rfl
  | cons r rs ih =>
    intro n
    simp only [processRegions, List.map_append, List.length_append]
    rw [processRegion_map_id, ih]
    simpa [Nat.add_comm] using List.range'_append_1 n _ _

lemma convGo_map_id (uu : List (List Point) → UGeom) (files : List PFile) :
    ∀ idx n, ((convGo uu idx n files).2).map (fun a => a.id)
      = List.range' n ((convGo uu idx n files).2.length) := by
  induction files with
  | nil => intro idx n; rfl
  | cons f fs ih =>
    intro idx n
    by_cases hex : f.imageExists
    · simp only [convGo, if_pos hex, List.map_append, List.length_append]
      rw [processRegions_map_id, ih]
      simpa [Nat.add_comm] using List.range'_append_1 n _ _
    · simp only [convGo, if_neg hex]
      exact ih (idx + 1) n

lemma convGo_images (uu : List (List Point) → UGeom) (files : List PFile) :
    ∀ idx n r, r ∈ (convGo uu idx n files).1 →
      ∃ p f, files.get? p = some f ∧ r.id = idx + p
        ∧ r.file_name = f.image_id ++ ".jpg" ∧ f.imageExists = true := by
  induction files with
  | nil => intro idx n r hr; cases hr
  | cons f fs ih =>
    intro idx n r hr
    by_cases hex : f.imageExists
    · simp only [convGo, if_pos hex] at hr
      rcases List.mem_cons.mp hr with h1 | h1
      · subst h1
        exact ⟨0, f, rfl, (Nat.add_zero idx).symm, rfl, hex⟩
      · obtain ⟨p, f2, hget, hid, hname, hex2⟩ := ih (idx + 1) _ r h1
        exact ⟨p + 1, f2, hget, by rw [hid]; omega, hname, hex2⟩
    · simp only [convGo, if_neg hex] at hr
      obtain ⟨p, f2, hget, hid, hname, hex2⟩ := ih (idx + 1) n r hr
      exact ⟨p + 1, f2, hget, by rw [hid]; omega, hname, hex2⟩

lemma convGo_images_nodup (uu : List (List Point) → UGeom) (files : List PFile) :
    ∀ idx n, (((convGo uu idx n files).1).map (fun r => r.id)).Nodup := by
  induction files with
  | nil => intro idx n; exact List.nodup_nil
  | cons f fs ih =>
    intro idx n
    by_cases hex : f.imageExists
    · simp only [convGo, if_pos hex, List.map_cons, List.nodup_cons]
      constructor
      · intro hmem
        obtain ⟨r, hr, hid⟩ := List.mem_map.mp hmem
        obtain ⟨p, f2, _, hid2, _, _⟩ := convGo_images uu fs (idx + 1) _ r hr
        have hid3 : r.id = idx := hid
        rw [hid2] at hid3
        omega
      · exact ih (idx + 1) _
    · simp only [convGo, if_neg hex]
      exact ih (idx + 1) n

/-- Claim C8: in the converter's output, annotation ids are exactly
`0, 1, 2, ...` in emission order (unique and consecutive from 0); image
record ids are pairwise distinct; and each image record's id is the index
of its file in the dataset's id list (the file at that index has the
record's file name). -/
theorem claim_C8_record_ids (uu : List (List Point) → UGeom) (files : List PFile) :
    ((convert_to_COCO uu files).annotations.map (fun a => a.id))
        = List.range ((convert_to_COCO uu files).annotations.length)
    ∧ (((convert_to_COCO uu files).images.map (fun r => r.id)).Nodup)
    ∧ ∀ r ∈ (convert_to_COCO uu files).images,
        ∃ f, files.get? r.id = some f ∧ r.file_name = f.image_id ++ ".jpg"
          ∧ f.imageExists = true := by
  refine ⟨?_, ?_, ?_⟩
  · rw [List.range_eq_range']
    exact convGo_map_id uu files 0 0
  · exact convGo_images_nodup uu files 0 0
  · intro r hr
    obtain ⟨p, f, hget, hid, hname, hex⟩ := convGo_images uu files 0 0 r hr
    refine ⟨f, ?_, hname, hex⟩
    rw [hid, Nat.zero_add]
    exact hget

/-- Claim C8 witness: the theorem applied to a one-file dataset and its
single image record. -/
theorem claim_C8_witness :
    _image_template 0 ("p0" ++ ".jpg") 100 100 ∈ (convert_to_COCO uuTri [fileTri]).images
    ∧ ∃ f, [fileTri].get? (_image_template 0 ("p0" ++ ".jpg") 100 100).id = some f
        ∧ (_image_template 0 ("p0" ++ ".jpg") 100 100).file_name = f.image_id ++ ".jpg"
        ∧ f.imageExists = true :=
  ⟨by decide,
   (claim_C8_record_ids uuTri [fileTri]).2.2 (_image_template 0 ("p0" ++ ".jpg") 100 100)
     (by decide)⟩

lemma emit_image_id (image_idx : Nat) (tag : String) (bs : List (Int × List Point)) :
    ∀ n a, a ∈ emitBoundaries image_idx tag n bs → a.image_id = image_idx := by
  induction bs with
  | nil => intro n a h; cases h
  | cons b bs ih =>
    intro n a h
    by_cases hb : 3 ≤ b.2.length
    · simp only [emitBoundaries, if_pos hb] at h
      rcases List.mem_cons.mp h with h1 | h1
      · subst h1; rfl
      · exact ih (n + 1) a h1
    · simp only [emitBoundaries, if_neg hb] at h
      exact ih n a h

lemma processRegion_image_id (uu : List (List Point) → UGeom) (image_idx n : Nat)
    (cells : List Cell) :
    ∀ a ∈ processRegion uu image_idx n cells, a.image_id = image_idx := by
  intro a ha
  unfold processRegion at ha
  rcases List.mem_append.mp ha with h | h
  · exact emit_image_id _ _ _ _ a h
  · exact emit_image_id _ _ _ _ a h

lemma processRegions_image_id (uu : List (List Point) → UGeom) (image_idx : Nat)
    (rs : List (List Cell)) :
    ∀ n a, a ∈ processRegions uu image_idx n rs → a.image_id = image_idx := by
  induction rs with
  | nil => intro n a h; cases h
  | cons r rs ih =>
    intro n a h
    simp only [processRegions] at h
    rcases List.mem_append.mp h with h1 | h1
    · exact processRegion_image_id uu image_idx n r a h1
    · exact ih _ a h1

lemma convGo_annos_ge (uu : List (List Point) → UGeom) (files : List PFile) :
    ∀ idx n a, a ∈ (convGo uu idx n files).2 → idx ≤ a.image_id := by
  induction files with
  | nil => intro idx n a h; cases h
  | cons f fs ih =>
    intro idx n a h
    by_cases hex : f.imageExists
    · simp only [convGo, if_pos hex] at h
      rcases List.mem_append.mp h with h1 | h1
      · rw [processRegions_image_id uu idx f.regions n a h1]
      · exact le_trans (Nat.le_succ idx) (ih (idx + 1) _ a h1)
    · simp only [convGo, if_neg hex] at h
      exact le_trans (Nat.le_succ idx) (ih (idx + 1) n a h)

lemma convGo_images_ge (uu : List (List Point) → UGeom) (files : List PFile) :
    ∀ idx n r, r ∈ (convGo uu idx n files).1 → idx ≤ r.id := by
  intro idx n r hr
  obtain ⟨p, f, _, hid, _, _⟩ := convGo_images uu files idx n r hr
  omega

lemma emit_eraseId (image_idx : Nat) (tag : String) (bs : List (Int × List Point)) :
    ∀ n m, (emitBoundaries image_idx tag n bs).map eraseId
      = (emitBoundaries image_idx tag m bs).map eraseId := by
  induction bs with
  | nil => intro n m; rfl
  | cons b bs ih =>
    intro n m
    by_cases hb : 3 ≤ b.2.length
    · simp only [emitBoundaries, if_pos hb, List.map_cons]
      have hhead : eraseId (_anno_template n image_idx b.2 tag)
          = eraseId (_anno_template m image_idx b.2 tag) := rfl
      rw [hhead, ih (n + 1) (m + 1)]
    · simp only [emitBoundaries, if_neg hb]
      exact ih n m

lemma emit_length_free (image_idx : Nat) (tag : String) (bs : List (Int × List Point))
    (n m : Nat) :
    (emitBoundaries image_idx tag n bs).length = (emitBoundaries image_idx tag m bs).length := by
  have h := congrArg List.length (emit_eraseId image_idx tag bs n m)
  simpa using h

lemma processRegion_eraseId (uu : List (List Point) → UGeom) (image_idx : Nat)
    (cells : List Cell) (n m : Nat) :
    (processRegion uu image_idx n cells).map eraseId
      = (processRegion uu image_idx m cells).map eraseId := by
  unfold processRegion
  rw [List.map_append, List.map_append]
  exact congrArg₂ (fun x y => x ++ y) (emit_eraseId _ _ _ n m) (emit_eraseId _ _ _ _ _)

lemma processRegion_length_free (uu : List (List Point) → UGeom) (image_idx : Nat)
    (cells : List Cell) (n m : Nat) :
    (processRegion uu image_idx n cells).length = (processRegion uu image_idx m cells).length := by
  have h := congrArg List.length (processRegion_eraseId uu image_idx cells n m)
  simpa using h

lemma processRegions_eraseId (uu : List (List Point) → UGeom) (image_idx : Nat)
    (rs : List (List Cell)) :
    ∀ n m, (processRegions uu image_idx n rs).map eraseId
      = (processRegions uu image_idx m rs).map eraseId := by
  induction rs with
  | nil => intro n m; rfl
  | cons r rs ih =>
    intro n m
    simp only [processRegions, List.map_append]
    rw [processRegion_eraseId uu image_idx r n m, ih _ _]

lemma convGo_free (uu : List (List Point) → UGeom) (files : List PFile) :
    ∀ idx n m, (convGo uu idx n files).1 = (convGo uu idx m files).1
      ∧ ((convGo uu idx n files).2).map eraseId = ((convGo uu idx m files).2).map eraseId := by
  induction files with
  | nil => intro idx n m; exact ⟨rfl, rfl⟩
  | cons f fs ih =>
    intro idx n m
    by_cases hex : f.imageExists
    · simp only [convGo, if_pos hex, List.map_append]
      obtain ⟨h1, h2⟩ := ih (idx + 1)
        (n + (processRegions uu idx n f.regions).length)
        (m + (processRegions uu idx m f.regions).length)
      exact ⟨by rw [h1], by rw [processRegions_eraseId uu idx f.regions n m, h2]⟩
    · simp only [convGo, if_neg hex]
      exact ih (idx + 1) n m

lemma filter_annos_eq_nil (l : List Anno) (i : Nat)
    (hall : ∀ a ∈ l, a.image_id ≠ i) :
    l.filter (fun a => a.image_id == i) = [] := by
  rw [List.filter_eq_nil_iff]
  intro a ha
  simp only [beq_iff_eq]
  exact hall a ha

lemma filter_annos_eq_self (l : List Anno) (i : Nat)
    (hall : ∀ a ∈ l, a.image_id = i) :
    l.filter (fun a => a.image_id == i) = l := by
  rw [List.filter_eq_self]
  intro a ha
  simp only [beq_iff_eq]
  exact hall a ha

lemma filter_images_eq_nil (l : List ImageRec) (i : Nat)
    (hall : ∀ r ∈ l, r.id ≠ i) :
    l.filter (fun r => r.id == i) = [] := by
  rw [List.filter_eq_nil_iff]
  intro r hr
  simp only [beq_iff_eq]
  exact hall r hr

lemma filter_map_eraseId (l : List Anno) (i : Nat) :
    (l.map eraseId).filter (fun a => a.image_id == i)
      = (l.filter (fun a => a.image_id == i)).map eraseId := by
  rw [List.filter_map]
  rfl

lemma map_erase_filter_congr (X Y : List Anno) (i : Nat)
    (h : X.map eraseId = Y.map eraseId) :
    (X.filter (fun a => a.image_id == i)).map eraseId
      = (Y.filter (fun a => a.image_id == i)).map eraseId := by
  rw [← filter_map_eraseId, ← filter_map_eraseId, h]


lemma convGo_filter_images_lt (uu : List (List Point) → UGeom) (files : List PFile)
    (idx n i : Nat) (h : i < idx) :
    (convGo uu idx n files).1.filter (fun r => r.id == i) = [] :=
  filter_images_eq_nil _ i
    (fun r hr => by have := convGo_images_ge uu files idx n r hr; omega)

lemma convGo_filter_annos_lt (uu : List (List Point) → UGeom) (files : List PFile)
    (idx n i : Nat) (h : i < idx) :
    (convGo uu idx n files).2.filter (fun a => a.image_id == i) = [] :=
  filter_annos_eq_nil _ i
    (fun a ha => by have := convGo_annos_ge uu files idx n a ha; omega)

lemma processRegions_filter_ne (uu : List (List Point) → UGeom) (image_idx n i : Nat)
    (rs : List (List Cell)) (h : image_idx ≠ i) :
    (processRegions uu image_idx n rs).filter (fun a => a.image_id == i) = [] :=
  filter_annos_eq_nil _ i
    (fun a ha => by rw [processRegions_image_id uu image_idx rs n a ha]; exact h)

lemma processRegions_filter_self (uu : List (List Point) → UGeom) (image_idx n : Nat)
    (rs : List (List Cell)) :
    (processRegions uu image_idx n rs).filter (fun a => a.image_id == image_idx)
      = processRegions uu image_idx n rs :=
  filter_annos_eq_self _ _ (fun a ha => processRegions_image_id uu image_idx rs n a ha)

lemma convGo_cons_pos (uu : List (List Point) → UGeom) (f : PFile) (fs : List PFile)
    (idx n : Nat) (hex : f.imageExists = true) :
    convGo uu idx n (f :: fs)
      = (_image_template idx (f.image_id ++ ".jpg") f.width f.height
            :: (convGo uu (idx + 1) (n + (processRegions uu idx n f.regions).length) fs).1,
         processRegions uu idx n f.regions
            ++ (convGo uu (idx + 1) (n + (processRegions uu idx n f.regions).length) fs).2) := by
  simp only [convGo, if_pos hex]

lemma convGo_cons_neg (uu : List (List Point) → UGeom) (f : PFile) (fs : List PFile)
    (idx n : Nat) (hex : ¬ f.imageExists = true) :
    convGo uu idx n (f :: fs) = convGo uu (idx + 1) n fs := by
  simp only [convGo, if_neg hex]

lemma convGo_two_runs (uu : List (List Point) → UGeom) :
    ∀ (fs fs2 : List PFile) (q idx n m : Nat),
      fs.length = fs2.length →
      (∀ p, p ≠ q → fs.get? p = fs2.get? p) →
      ∀ i, i ≠ idx + q →
        (convGo uu idx n fs).1.filter (fun r => r.id == i)
            = (convGo uu idx m fs2).1.filter (fun r => r.id == i)
        ∧ ((convGo uu idx n fs).2.filter (fun a => a.image_id == i)).map eraseId
            = ((convGo uu idx m fs2).2.filter (fun a => a.image_id == i)).map eraseId := by
  intro fs
  induction fs with
  | nil =>
    intro fs2 q idx n m hlen _ i _
    have h2 : fs2 = [] := List.length_eq_zero.mp hlen.symm
    subst h2
    exact ⟨rfl, rfl⟩
  | cons f fs ih =>
    intro fs2 q idx n m hlen hagree i hi
    cases fs2 with
    | nil => simp at hlen
    | cons f2 fs2 =>
      have hlen2 : fs.length = fs2.length := by simpa using hlen
      cases q with
      | zero =>
        have htail : fs = fs2 := by
          apply List.ext_get?
          intro p
          have h3 := hagree (p + 1) (Nat.succ_ne_zero p)
          simpa using h3
        subst htail
        have hi0 : idx ≠ i := fun hc => hi (by omega)
        have himgs : ∀ n2 m2 : Nat,
            (convGo uu (idx + 1) n2 fs).1.filter (fun r => r.id == i)
              = (convGo uu (idx + 1) m2 fs).1.filter (fun r => r.id == i) :=
          fun n2 m2 => congrArg _ (convGo_free uu fs (idx + 1) n2 m2).1
        have hannos : ∀ n2 m2 : Nat,
            ((convGo uu (idx + 1) n2 fs).2.filter (fun a => a.image_id == i)).map eraseId
              = ((convGo uu (idx + 1) m2 fs).2.filter (fun a => a.image_id == i)).map eraseId :=
          fun n2 m2 => map_erase_filter_congr _ _ i (convGo_free uu fs (idx + 1) n2 m2).2
        constructor
        · by_cases hex : f.imageExists = true <;> by_cases hex2 : f2.imageExists = true
          · rw [convGo_cons_pos uu f fs idx n hex, convGo_cons_pos uu f2 fs idx m hex2]
            simp only [List.filter_cons]
            rw [show ((_image_template idx (f.image_id ++ ".jpg") f.width f.height).id == i)
                = false from beq_eq_false_iff_ne.mpr hi0]
            rw [show ((_image_template idx (f2.image_id ++ ".jpg") f2.width f2.height).id == i)
                = false from beq_eq_false_iff_ne.mpr hi0]
            exact himgs _ _
          · rw [convGo_cons_pos uu f fs idx n hex, convGo_cons_neg uu f2 fs idx m hex2]
            simp only [List.filter_cons]
            rw [show ((_image_template idx (f.image_id ++ ".jpg") f.width f.height).id == i)
                = false from beq_eq_false_iff_ne.mpr hi0]
            exact himgs _ _
          · rw [convGo_cons_neg uu f fs idx n hex, convGo_cons_pos uu f2 fs idx m hex2]
            simp only [List.filter_cons]
            rw [show ((_image_template idx (f2.image_id ++ ".jpg") f2.width f2.height).id == i)
                = false from beq_eq_false_iff_ne.mpr hi0]
            exact himgs _ _
          · rw [convGo_cons_neg uu f fs idx n hex, convGo_cons_neg uu f2 fs idx m hex2]
            exact himgs _ _
        · by_cases hex : f.imageExists = true <;> by_cases hex2 : f2.imageExists = true
          · rw [convGo_cons_pos uu f fs idx n hex, convGo_cons_pos uu f2 fs idx m hex2]
            simp only [List.filter_append]
            rw [processRegions_filter_ne uu idx n i f.regions hi0,
              processRegions_filter_ne uu idx m i f2.regions hi0]
            simp only [List.nil_append]
            exact hannos _ _
          · rw [convGo_cons_pos uu f fs idx n hex, convGo_cons_neg uu f2 fs idx m hex2]
            simp only [List.filter_append]
            rw [processRegions_filter_ne uu idx n i f.regions hi0]
            simp only [List.nil_append]
            exact hannos _ _
          · rw [convGo_cons_neg uu f fs idx n hex, convGo_cons_pos uu f2 fs idx m hex2]
            simp only [List.filter_append]
            rw [processRegions_filter_ne uu idx m i f2.regions hi0]
            simp only [List.nil_append]
            exact hannos _ _
          · rw [convGo_cons_neg uu f fs idx n hex, convGo_cons_neg uu f2 fs idx m hex2]
            exact hannos _ _
      | succ q2 =>
        have hhead : f = f2 := by
          have h0 := hagree 0 (by omega)
          simpa using h0
        subst hhead
        have hagree2 : ∀ p, p ≠ q2 → fs.get? p = fs2.get? p := by
          intro p hp
          have h3 := hagree (p + 1) (by omega)
          simpa using h3
        by_cases hidx : i = idx
        · subst hidx
          constructor
          · by_cases hex : f.imageExists = true
            · rw [convGo_cons_pos uu f fs i n hex, convGo_cons_pos uu f fs2 i m hex]
              simp only [List.filter_cons]
              rw [show ((_image_template i (f.image_id ++ ".jpg") f.width f.height).id == i)
                  = true from beq_iff_eq.mpr rfl]
              rw [convGo_filter_images_lt uu fs (i + 1) _ i (by omega),
                convGo_filter_images_lt uu fs2 (i + 1) _ i (by omega)]
            · rw [convGo_cons_neg uu f fs i n hex, convGo_cons_neg uu f fs2 i m hex]
              rw [convGo_filter_images_lt uu fs (i + 1) _ i (by omega),
                convGo_filter_images_lt uu fs2 (i + 1) _ i (by omega)]
          · by_cases hex : f.imageExists = true
            · rw [convGo_cons_pos uu f fs i n hex, convGo_cons_pos uu f fs2 i m hex]
              simp only [List.filter_append]
              rw [convGo_filter_annos_lt uu fs (i + 1) _ i (by omega),
                convGo_filter_annos_lt uu fs2 (i + 1) _ i (by omega)]
              rw [processRegions_filter_self uu i n f.regions,
                processRegions_filter_self uu i m f.regions]
              simp only [List.append_nil]
              exact processRegions_eraseId uu i f.regions n m
            · rw [convGo_cons_neg uu f fs i n hex, convGo_cons_neg uu f fs2 i m hex]
              rw [convGo_filter_annos_lt uu fs (i + 1) _ i (by omega),
                convGo_filter_annos_lt uu fs2 (i + 1) _ i (by omega)]
        · have hi2 : i ≠ (idx + 1) + q2 := by omega
          have hrec := ih fs2 q2 (idx + 1)
          constructor
          · by_cases hex : f.imageExists = true
            · rw [convGo_cons_pos uu f fs idx n hex, convGo_cons_pos uu f fs2 idx m hex]
              simp only [List.filter_cons]
              rw [show ((_image_template idx (f.image_id ++ ".jpg") f.width f.height).id == i)
                  = false from beq_eq_false_iff_ne.mpr (fun hc => hidx hc.symm)]
              exact (hrec _ _ hlen2 hagree2 i hi2).1
            · rw [convGo_cons_neg uu f fs idx n hex, convGo_cons_neg uu f fs2 idx m hex]
              exact (hrec _ _ hlen2 hagree2 i hi2).1
          · by_cases hex : f.imageExists = true
            · rw [convGo_cons_pos uu f fs idx n hex, convGo_cons_pos uu f fs2 idx m hex]
              simp only [List.filter_append]
              rw [processRegions_filter_ne uu idx n i f.regions (fun hc => hidx hc.symm),
                processRegions_filter_ne uu idx m i f.regions (fun hc => hidx hc.symm)]
              simp only [List.nil_append]
              exact (hrec _ _ hlen2 hagree2 i hi2).2
            · rw [convGo_cons_neg uu f fs idx n hex, convGo_cons_neg uu f fs2 idx m hex]
              exact (hrec _ _ hlen2 hagree2 i hi2).2

/-- Claim C4 counterexample: two runs over a two-file dataset whose first
annotation file differs (empty vs one single-cell region). The second
file's annotation records are NOT identical across the runs: the running
`anno_id` is threaded across files, so their ids shift (0,1 vs 2,3). -/
theorem claim_C4_counterexample :
    [fileEmpty, fileSecond].length = [fileTri, fileSecond].length
    ∧ [fileEmpty, fileSecond].get? 1 = [fileTri, fileSecond].get? 1
    ∧ (annosFor (convert_to_COCO uuTri [fileEmpty, fileSecond]) 1).map (fun a => a.id) = [0, 1]
    ∧ (annosFor (convert_to_COCO uuTri [fileTri, fileSecond]) 1).map (fun a => a.id) = [2, 3]
    ∧ annosFor (convert_to_COCO uuTri [fileEmpty, fileSecond]) 1
        ≠ annosFor (convert_to_COCO uuTri [fileTri, fileSecond]) 1 := by
  have hA : (annosFor (convert_to_COCO uuTri [fileEmpty, fileSecond]) 1).map (fun a => a.id)
      = [0, 1] := by decide
  have hB : (annosFor (convert_to_COCO uuTri [fileTri, fileSecond]) 1).map (fun a => a.id)
      = [2, 3] := by decide
  refine ⟨by decide, by decide, hA, hB, ?_⟩
  intro h
  rw [h] at hA
  exact absurd (hA.symm.trans hB) (by decide)

/-- Claim C4 (amended): the conversion is stateless between files up to
annotation ids. For two runs over datasets of equal length that agree on
every file except (at most) the one at index `j`, the image records emitted
for every other file are identical, and the annotation records emitted for
every other file are identical except for their `id` field (which shifts by
the difference in the earlier files' record counts). -/
theorem claim_C4_amended_stateless (uu : List (List Point) → UGeom)
    (fs fs2 : List PFile) (j : Nat)
    (hlen : fs.length = fs2.length)
    (hagree : ∀ p, p ≠ j → fs.get? p = fs2.get? p) :
    ∀ i, i ≠ j →
      imagesFor (convert_to_COCO uu fs) i = imagesFor (convert_to_COCO uu fs2) i
      ∧ (annosFor (convert_to_COCO uu fs) i).map eraseId
          = (annosFor (convert_to_COCO uu fs2) i).map eraseId := by
  intro i hij
  exact convGo_two_runs uu fs fs2 j 0 0 0 hlen hagree i (by omega)

/-- Claim C4 witness: the amended theorem applied to the concrete two-file
datasets of the counterexample, at the unchanged file index 1. -/
theorem claim_C4_witness :
    [fileEmpty, fileSecond].length = [fileTri, fileSecond].length
    ∧ imagesFor (convert_to_COCO uuTri [fileEmpty, fileSecond]) 1
        = imagesFor (convert_to_COCO uuTri [fileTri, fileSecond]) 1
    ∧ (annosFor (convert_to_COCO uuTri [fileEmpty, fileSecond]) 1).map eraseId
        = (annosFor (convert_to_COCO uuTri [fileTri, fileSecond]) 1).map eraseId :=
  ⟨by decide,
   (claim_C4_amended_stateless uuTri [fileEmpty, fileSecond] [fileTri, fileSecond] 0
     (by decide)
     (fun p hp => match p with
       | 0 => absurd rfl hp
       | 1 => rfl
       | _ + 2 => rfl)
     1 (by omega)).1,
   (claim_C4_amended_stateless uuTri [fileEmpty, fileSecond] [fileTri, fileSecond] 0
     (by decide)
     (fun p hp => match p with
       | 0 => absurd rfl hp
       | 1 => rfl
       | _ + 2 => rfl)
     1 (by omega)).2⟩

lemma dictInsertO_cons_ne (p : Option String × Option String)
    (d : List (Option String × Option String)) (k v : Option String)
    (h : (p.1 == k) = false) :
    dictInsertO (p :: d) k v = p :: dictInsertO d k v := by
  unfold dictInsertO
  simp only [List.any_cons, h, Bool.false_or]
  by_cases h2 : d.any (fun q => q.1 == k) = true
  · rw [if_pos h2, if_pos h2, List.map_cons, if_neg (by rw [h]; exact Bool.false_ne_true)]
  · rw [if_neg h2, if_neg h2, List.cons_append]

lemma dictInsertO_cons_eq (p : Option String × Option String)
    (d : List (Option String × Option String)) (k v : Option String)
    (h : (p.1 == k) = true) :
    dictInsertO (p :: d) k v
      = (k, v) :: d.map (fun q => if q.1 == k then (k, v) else q) := by
  unfold dictInsertO
  simp only [List.any_cons, h, Bool.true_or, if_pos, List.map_cons, if_pos h]

lemma find?_map_upd (d : List (Option String × Option String)) (k v k2 : Option String)
    (hne : k2 ≠ k) :
    (d.map (fun q => if q.1 == k then (k, v) else q)).find? (fun q => q.1 == k2)
      = d.find? (fun q => q.1 == k2) := by
  induction d with
  | nil => rfl
  | cons q d ih =>
    simp only [List.map_cons]
    by_cases hq : (q.1 == k) = true
    · rw [if_pos hq]
      have h1 : (k == k2) = false :=
        beq_eq_false_iff_ne.mpr (fun hc => hne hc.symm)
      have hqk : q.1 = k := beq_iff_eq.mp hq
      have h2 : (q.1 == k2) = false := by
        rw [hqk]; exact h1
      simp only [List.find?_cons, h1, h2]
      exact ih
    · rw [if_neg hq]
      cases hq2 : (q.1 == k2) with
      | true => simp only [List.find?_cons, hq2]
      | false =>
        simp only [List.find?_cons, hq2]
        exact ih

lemma dictInsertO_lookup (d : List (Option String × Option String))
    (k v : Option String) : ∀ k2,
    dictLookupO (dictInsertO d k v) k2 = if k2 = k then some v else dictLookupO d k2 := by
  induction d with
  | nil =>
    intro k2
    by_cases hk : k2 = k
    · subst hk
      simp [dictInsertO, dictLookupO]
    · rw [if_neg hk]
      have h1 : (k == k2) = false :=
        beq_eq_false_iff_ne.mpr (fun hc => hk hc.symm)
      simp only [dictInsertO, List.any_nil, Bool.false_eq_true, if_false, List.nil_append]
      simp only [dictLookupO, List.find?_cons, h1, List.find?_nil]
  | cons p d ih =>
    intro k2
    by_cases hp : (p.1 == k) = true
    · rw [dictInsertO_cons_eq p d k v hp]
      by_cases hk : k2 = k
      · subst hk
        have h1 : (k2 == k2) = true := beq_iff_eq.mpr rfl
        simp [dictLookupO, List.find?_cons, h1, Option.map_some']
      · rw [if_neg hk]
        have h1 : (k == k2) = false :=
          beq_eq_false_iff_ne.mpr (fun hc => hk hc.symm)
        have hpk : p.1 = k := beq_iff_eq.mp hp
        have h2 : (p.1 == k2) = false := by rw [hpk]; exact h1
        simp only [dictLookupO, List.find?_cons, h1, h2]
        rw [find?_map_upd d k v k2 hk]
    · rw [dictInsertO_cons_ne p d k v (by
        cases hc : (p.1 == k)
        · rfl
        · exact absurd hc hp)]
      cases hq2 : (p.1 == k2) with
      | true =>
        have hk : k2 ≠ k := by
          intro hc
          subst hc
          exact hp hq2
        rw [if_neg hk]
        simp only [dictLookupO, List.find?_cons, hq2]
      | false =>
        simp only [dictLookupO, List.find?_cons, hq2]
        exact ih k2

lemma dictInsertO_keys (d : List (Option String × Option String))
    (k v : Option String) :
    ∀ p ∈ dictInsertO d k v, p.1 = k ∨ p.1 ∈ d.map (fun q => q.1) := by
  intro p hp
  unfold dictInsertO at hp
  by_cases h2 : d.any (fun q => q.1 == k) = true
  · rw [if_pos h2] at hp
    obtain ⟨q, hq, hqp⟩ := List.mem_map.mp hp
    by_cases hqk : (q.1 == k) = true
    · rw [if_pos hqk] at hqp
      exact Or.inl (by rw [← hqp])
    · rw [if_neg hqk] at hqp
      exact Or.inr (by rw [← hqp]; exact List.mem_map_of_mem _ hq)
  · rw [if_neg h2] at hp
    rcases List.mem_append.mp hp with h3 | h3
    · exact Or.inr (List.mem_map_of_mem _ h3)
    · rw [List.mem_singleton.mp h3]
      exact Or.inl rfl

lemma fold_insert_lookup :
    ∀ (es : List (Option String × Option String))
      (acc : List (Option String × Option String)) (k : Option String),
    dictLookupO (es.foldl (fun out e => dictInsertO out e.1 e.2) acc) k
      = match es.reverse.find? (fun p => p.1 == k) with
        | some p => some p.2
        | none => dictLookupO acc k := by
  intro es
  induction es with
  | nil => intro acc k; rfl
  | cons e es ih =>
    intro acc k
    simp only [List.foldl_cons, List.reverse_cons, List.find?_append]
    rw [ih]
    cases hf : es.reverse.find? (fun p => p.1 == k) with
    | some p => simp [Option.or]
    | none =>
      simp only [Option.or]
      cases hk : (e.1 == k) with
      | true =>
        simp only [List.find?_cons, hk]
        rw [dictInsertO_lookup acc e.1 e.2 k]
        rw [if_pos (beq_iff_eq.mp hk).symm]
      | false =>
        simp only [List.find?_cons, hk, List.find?_nil]
        rw [dictInsertO_lookup acc e.1 e.2 k]
        rw [if_neg (fun hc : k = e.1 => by
          rw [hc] at hk
          rw [beq_iff_eq.mpr rfl] at hk
          cases hk)]

lemma fold_insert_keys :
    ∀ (es acc : List (Option String × Option String)) (p : Option String × Option String),
      p ∈ es.foldl (fun out e => dictInsertO out e.1 e.2) acc →
      p.1 ∈ acc.map (fun q => q.1) ∨ p.1 ∈ es.map (fun q => q.1) := by
  intro es
  induction es with
  | nil => intro acc p hp; exact Or.inl (List.mem_map_of_mem _ hp)
  | cons e es ih =>
    intro acc p hp
    simp only [List.foldl_cons] at hp
    rcases ih (dictInsertO acc e.1 e.2) p hp with h | h
    · obtain ⟨q, hq, hqp⟩ := List.mem_map.mp h
      rcases dictInsertO_keys acc e.1 e.2 q hq with h2 | h2
      · exact Or.inr (by rw [← hqp, h2]; exact List.mem_cons_self _ _)
      · exact Or.inl (by rw [← hqp]; exact h2)
    · exact Or.inr (List.mem_cons.mpr (Or.inr h))

lemma parse_fold_general :
    ∀ (dids : List XElem) (acc : List (Option String × Option String)),
    dids.foldl (fun out did =>
      match did.children.find? (fun c => c.tag == "unitid"),
            did.children.find? (fun c => c.tag == "dao") with
      | some uid, some mets => dictInsertO out uid.text (attrGet mets.attrs "href")
      | _, _ => out) acc
    = (dids.filterMap (fun did =>
        match did.children.find? (fun c => c.tag == "unitid"),
              did.children.find? (fun c => c.tag == "dao") with
        | some uid, some mets => some (uid.text, attrGet mets.attrs "href")
        | _, _ => none)).foldl (fun out e => dictInsertO out e.1 e.2) acc := by
  intro dids
  induction dids with
  | nil => intro acc; rfl
  | cons did rest ih =>
    intro acc
    simp only [List.foldl_cons, List.filterMap_cons]
    cases h1 : did.children.find? (fun c => c.tag == "unitid") with
    | none =>
      simp only [h1]
      exact ih acc
    | some uid =>
      cases h2 : did.children.find? (fun c => c.tag == "dao") with
      | none =>
        simp only [h1, h2]
        exact ih acc
      | some mets =>
        simp only [h1, h2, List.foldl_cons]
        exact ih (dictInsertO acc uid.text (attrGet mets.attrs "href"))

lemma parse_eq_fold (doc : EADDoc) :
    parse_unitid_mets doc
      = (didEntries doc).foldl (fun out e => dictInsertO out e.1 e.2) [] := by
  unfold parse_unitid_mets didEntries
  exact parse_fold_general _ []

/-- Claim C6 counterexample: two non-namespaced `did` elements share the
unitid text "1" with different `dao` hrefs. The second assignment
overwrites the first, so the table does not map the first did's unitid text
to its dao's href. -/
theorem claim_C6_counterexample :
    parse_unitid_mets docCex = [(some "1", some "b")]
    ∧ didEntries docCex = [(some "1", some "a"), (some "1", some "b")]
    ∧ dictLookupO (parse_unitid_mets docCex) (some "1") = some (some "b")
    ∧ (some "1", some "a") ∉ parse_unitid_mets docCex :=
  ⟨by decide, by decide, by decide, by decide⟩

/-- Claim C6 (amended): `parse_unitid_mets` builds the lookup table that
maps each unitid text to the dao href of the LAST `did` element (in
document order, among the `did` elements having both a `unitid` and a `dao`
child, matched without a namespace) carrying that unitid text — and it
contains no other entries: every key of the table is the unitid text of
such a `did` element. -/
theorem claim_C6_amended_lookup (doc : EADDoc) :
    (∀ k, dictLookupO (parse_unitid_mets doc) k
        = ((didEntries doc).reverse.find? (fun p => p.1 == k)).map (fun p => p.2))
    ∧ ∀ p ∈ parse_unitid_mets doc, p.1 ∈ (didEntries doc).map (fun q => q.1) := by
  constructor
  · intro k
    rw [parse_eq_fold, fold_insert_lookup]
    cases hf : (didEntries doc).reverse.find? (fun p => p.1 == k) with
    | some p => simp
    | none => simp [dictLookupO]
  · intro p hp
    rw [parse_eq_fold] at hp
    rcases fold_insert_keys (didEntries doc) [] p hp with h | h
    · cases h
    · exact h

/-- Claim C6 witness: the amended theorem applied to the concrete document
of the counterexample and its single table entry. -/
theorem claim_C6_witness :
    dictLookupO (parse_unitid_mets docCex) (some "1")
        = ((didEntries docCex).reverse.find? (fun p => p.1 == some "1")).map (fun p => p.2)
    ∧ (some "1", some "b") ∈ parse_unitid_mets docCex
    ∧ (some "1") ∈ (didEntries docCex).map (fun q => q.1) :=
  ⟨(claim_C6_amended_lookup docCex).1 (some "1"),
   by decide,
   (claim_C6_amended_lookup docCex).2 (some "1", some "b") (by decide)⟩

lemma truthyO_eq_some (o : Option String) (u : String) :
    truthyO o = some u ↔ o = some u ∧ u ≠ "" := by
  cases o with
  | none => simp [truthyO]
  | some s =>
    simp only [truthyO]
    by_cases hs : (s == "") = true
    · rw [if_pos hs]
      have hs2 : s = "" := beq_iff_eq.mp hs
      subst hs2
      constructor
      · intro h; cases h
      · rintro ⟨h1, h2⟩
        exact absurd (Option.some_injective _ h1).symm h2
    · rw [if_neg hs]
      constructor
      · intro h
        have hu : s = u := Option.some_injective _ h
        subst hu
        exact ⟨rfl, fun hc => hs (beq_iff_eq.mpr hc)⟩
      · rintro ⟨h1, _⟩
        exact h1

lemma append_xml_ne_append_jpg (a b : String) : a ++ ".xml" ≠ b ++ ".jpg" := by
  intro h
  have h2 : (a ++ ".xml").toList.reverse.headD 'z'
      = (b ++ ".jpg").toList.reverse.headD 'z' := by rw [h]
  have hx : (a ++ ".xml").toList = a.toList ++ ['.', 'x', 'm', 'l'] := rfl
  have hj : (b ++ ".jpg").toList = b.toList ++ ['.', 'j', 'p', 'g'] := rfl
  rw [hx, hj, List.reverse_append, List.reverse_append] at h2
  simp at h2

lemma contains_append_ne (l : List String) (n m : String) (hne : n ≠ m) :
    (l ++ [n]).contains m = l.contains m := by
  have hmn : (m == n) = false := beq_eq_false_iff_ne.mpr (fun hc => hne hc.symm)
  induction l with
  | nil =>
    show ([n].contains m) = (([] : List String).contains m)
    rw [List.contains_cons, hmn]
    rfl
  | cons x xs ih =>
    show ((x :: (xs ++ [n])).contains m) = ((x :: xs).contains m)
    simp only [List.contains_cons]
    rw [ih]

lemma addFile_contains_ne (l : List String) (n m : String) (hne : n ≠ m) :
    (addFile l n).contains m = l.contains m := by
  unfold addFile
  by_cases h : l.contains n = true
  · rw [if_pos h]
  · rw [if_neg h]
    exact contains_append_ne l n m hne

/-- Claim C2 counterexample: the label resolves to a resource URL in the
manifest, but the page image already exists in the target directory, so no
image is fetched. -/
theorem claim_C2_counterexample :
    find_image_url (networkCex "http://mets") (pathStem "1.04.02_7673_0098.xml")
        = some "http://img"
    ∧ (process_file networkCex "1.04.02_7673_0098.xml" umCex stCex).map Prod.fst
        = some false :=
  ⟨by decide, by decide⟩

/-- Claim C2 (amended): for a `process_file` call in a consistent state
(every already-processed inventory number has its downloaded manifest in
the target directory), the page image is fetched if and only if the
inventory number extracts from the file name, it has a truthy METS URL in
the unitid table, the file's label resolves in the downloaded manifest to a
non-empty resource URL, and the page image does not already exist in the
target directory. -/
theorem claim_C2_amended_fetch (network : String → Mets) (xmlName : String)
    (um : List (Option String × Option String)) (st : DlState)
    (hcons : ∀ inv url, st.processedMets.contains inv = true →
      truthyO (dictGetS um inv) = some url →
      (st.metsStore.find? (fun p => p.1 == inv)).map (fun p => p.2) = some (network url)) :
    (process_file network xmlName um st).map Prod.fst = some true
      ↔ ∃ inv url u, extract_inventory_number xmlName = some inv
          ∧ truthyO (dictGetS um inv) = some url
          ∧ find_image_url (network url) (pathStem xmlName) = some u
          ∧ u ≠ ""
          ∧ st.targetFiles.contains (pathStem xmlName ++ ".jpg") = false := by
  cases hex : extract_inventory_number xmlName with
  | none =>
    simp only [process_file, hex, Option.map_none']
    constructor
    · intro h; cases h
    · rintro ⟨inv, url, u, h1, _⟩
      cases h1
  | some inv =>
    cases hurl : truthyO (dictGetS um inv) with
    | none =>
      simp only [process_file, hex, hurl, Option.map_some']
      constructor
      · intro h
        cases h
      · rintro ⟨inv2, url, u, h1, h2, _⟩
        have hi : inv2 = inv := (Option.some_injective _ h1).symm
        subst hi
        rw [hurl] at h2
        cases h2
    | some url =>
      have hfind : ((if st.processedMets.contains inv then st
          else { processedMets := inv :: st.processedMets
                 metsStore := (inv, network url) :: st.metsStore
                 targetFiles := addFile st.targetFiles (inv ++ ".xml") } : DlState).metsStore.find?
            (fun p => p.1 == inv)).map (fun p => p.2) = some (network url) := by
        by_cases hproc : st.processedMets.contains inv = true
        · rw [if_pos hproc]
          exact hcons inv url hproc hurl
        · rw [if_neg hproc]
          show (((inv, network url) :: st.metsStore).find? (fun p => p.1 == inv)).map
              (fun p => p.2) = some (network url)
          have hh : ((inv : String) == inv) = true := beq_iff_eq.mpr rfl
          simp [List.find?_cons, hh]
      have htarget : (if st.processedMets.contains inv then st
          else { processedMets := inv :: st.processedMets
                 metsStore := (inv, network url) :: st.metsStore
                 targetFiles := addFile st.targetFiles (inv ++ ".xml") } : DlState).targetFiles.contains
            (pathStem xmlName ++ ".jpg") = st.targetFiles.contains (pathStem xmlName ++ ".jpg") := by
        by_cases hproc : st.processedMets.contains inv = true
        · rw [if_pos hproc]
        · rw [if_neg hproc]
          show (addFile st.targetFiles (inv ++ ".xml")).contains (pathStem xmlName ++ ".jpg")
            = st.targetFiles.contains (pathStem xmlName ++ ".jpg")
          exact addFile_contains_ne _ _ _ (append_xml_ne_append_jpg inv (pathStem xmlName))
      obtain ⟨entry, hentry, hval⟩ := Option.map_eq_some'.mp hfind
      simp only [process_file, hex, hurl, hentry, hval]
      cases hiu : truthyO (find_image_url (network url) (pathStem xmlName)) with
      | none =>
        simp only [Option.map_some']
        constructor
        · intro h; cases h
        · rintro ⟨inv2, url2, u, h1, h2, h3, h4, _⟩
          have hi : inv2 = inv := (Option.some_injective _ h1).symm
          subst hi
          rw [hurl] at h2
          have hu2 : url2 = url := (Option.some_injective _ h2).symm
          subst hu2
          rw [(truthyO_eq_some _ u).mpr ⟨h3, h4⟩] at hiu
          cases hiu
      | some iu =>
        by_cases hcont : st.targetFiles.contains (pathStem xmlName ++ ".jpg") = true
        · rw [show (if st.processedMets.contains inv then st
              else { processedMets := inv :: st.processedMets
                     metsStore := (inv, network url) :: st.metsStore
                     targetFiles := addFile st.targetFiles (inv ++ ".xml") } : DlState).targetFiles.contains
                (pathStem xmlName ++ ".jpg") = true from htarget.trans hcont]
          rw [if_pos rfl]
          simp only [Option.map_some']
          constructor
          · intro h; cases h
          · rintro ⟨inv2, url2, u, h1, h2, h3, h4, h5⟩
            rw [hcont] at h5
            cases h5
        · have hcont2 : st.targetFiles.contains (pathStem xmlName ++ ".jpg") = false := by
            cases hc : st.targetFiles.contains (pathStem xmlName ++ ".jpg")
            · rfl
            · exact absurd hc hcont
          rw [show (if st.processedMets.contains inv then st
              else { processedMets := inv :: st.processedMets
                     metsStore := (inv, network url) :: st.metsStore
                     targetFiles := addFile st.targetFiles (inv ++ ".xml") } : DlState).targetFiles.contains
                (pathStem xmlName ++ ".jpg") = false from htarget.trans hcont2]
          simp only [Bool.false_eq_true, if_false, Option.map_some']
          constructor
          · intro _
            obtain ⟨hfu, hne⟩ := (truthyO_eq_some _ iu).mp hiu
            exact ⟨inv, url, iu, rfl, hurl, hfu, hne, hcont2⟩
          · intro _
            trivial

/-- Claim C2 witness: the amended theorem applied to a fresh state (the
consistency hypothesis is vacuous) in which everything resolves and the
image is absent, so the fetch actually happens. -/
theorem claim_C2_witness :
    (∀ inv url, (stW10.processedMets.contains inv) = true →
      truthyO (dictGetS umCex inv) = some url →
      (stW10.metsStore.find? (fun p => p.1 == inv)).map (fun p => p.2)
        = some (networkCex url))
    ∧ ((process_file networkCex "1.04.02_7673_0098.xml" umCex stW10).map Prod.fst = some true
        ↔ ∃ inv url u, extract_inventory_number "1.04.02_7673_0098.xml" = some inv
            ∧ truthyO (dictGetS umCex inv) = some url
            ∧ find_image_url (networkCex url) (pathStem "1.04.02_7673_0098.xml") = some u
            ∧ u ≠ ""
            ∧ stW10.targetFiles.contains (pathStem "1.04.02_7673_0098.xml" ++ ".jpg") = false)
    ∧ (process_file networkCex "1.04.02_7673_0098.xml" umCex stW10).map Prod.fst = some true :=
  ⟨fun inv url h => by simp [stW10] at h,
   claim_C2_amended_fetch networkCex "1.04.02_7673_0098.xml" umCex stW10
     (fun inv url h => by simp [stW10] at h),
   by decide⟩

/-- Claim C10: if the downloader's `main` completes normally, the final
target-directory listing contains no file matching `*.xml`: the cleanup
loop deletes every such file, downloaded METS manifests and pre-existing
`.xml` files alike. -/
theorem claim_C10_target_has_no_xml (network : String → Mets)
    (um : List (Option String × Option String)) (files : List String)
    (st0 : DlState) (tfinal : List String)
    (h : main_run network um files st0 = some tfinal) :
    ∀ nm ∈ tfinal, strEndsWith nm ".xml" = false := by
  unfold main_run at h
  cases hloop : mainLoop network um files st0 with
  | none => rw [hloop] at h; cases h
  | some st =>
    rw [hloop] at h
    simp only [Option.map_some'] at h
    have heq : st.targetFiles.filter (fun n2 => !(strEndsWith n2 ".xml")) = tfinal :=
      Option.some_injective _ h
    intro nm hnm
    rw [← heq] at hnm
    have h2 := (List.mem_filter.mp hnm).2
    cases hc : strEndsWith nm ".xml"
    · rfl
    · rw [hc] at h2
      exact absurd h2 (by decide)

/-- Claim C10 witness: a concrete completed run; the stale `old.xml` and
the downloaded `7673.xml` manifest are gone, only the fetched page image
remains. -/
theorem claim_C10_witness :
    main_run networkCex umCex ["1.04.02_7673_0098.xml"] stW10
        = some ["1.04.02_7673_0098.jpg"]
    ∧ strEndsWith "1.04.02_7673_0098.jpg" ".xml" = false :=
  ⟨by decide,
   claim_C10_target_has_no_xml networkCex umCex ["1.04.02_7673_0098.xml"] stW10
     ["1.04.02_7673_0098.jpg"] (by decide) "1.04.02_7673_0098.jpg" (by decide)⟩
